import Mathlib

set_option maxRecDepth 100000

/-!
Verification of the hunter change-point detection core and report layer.

The repository ships only `hunter/report.py`, `hunter/main.py` and
`tests/series_test.py`; the core modules `hunter/series.py` and
`hunter/analysis.py` are not present, so the core data model and algorithms
below are modelled from the specification (each such definition carries a
doc comment starting with `Modelled from the spec:`).  The report layer is
translated directly from `hunter/report.py`.

Numeric conventions of the embedding:
* Measurement values (Python floats) are embedded as integers after
  fixed-point scaling; the reference data has two decimal digits, so it is
  scaled by 100 (1.02 ↦ 102).  All claim-relevant outputs (change-point
  indices, p-values, relative magnitudes) are invariant under this scaling.
* Derived fractional quantities (means, variances, p-values, magnitudes)
  are carried as raw numerator/denominator pairs (`Frac`) with positive
  denominators, compared by cross multiplication; no normalization is
  performed.  Standard deviations are irrational, so `ComparativeStats`
  carries the variances (`var_1`/`var_2`) instead; no claim inspects the
  standard deviations themselves.
* The permutation test of the spec requires a reproducible random source;
  following the spec's determinism requirement it is modelled by an
  explicit linear congruential generator with a fixed default seed carried
  in `AnalysisOptions`.
-/

namespace Hunter

/-- Raw rational value: numerator and denominator, kept un-normalized.
Denominators are positive for every value the model constructs. -/
structure Frac where
  num : Int
  den : Int
deriving DecidableEq

/-- Embed an integer as a fraction. -/
def Frac.ofInt (n : Int) : Frac := ⟨n, 1⟩

/-- Comparison `a ≤ b` by cross multiplication (valid for positive denominators). -/
def Frac.ble (a b : Frac) : Bool := decide (a.num * b.den ≤ b.num * a.den)

/-- Strict comparison `a < b` by cross multiplication. -/
def Frac.blt (a b : Frac) : Bool := decide (a.num * b.den < b.num * a.den)

/-- Propositional form of `Frac.ble`. -/
def Frac.le (a b : Frac) : Prop := Frac.ble a b = true

instance (a b : Frac) : Decidable (Frac.le a b) := by
  unfold Frac.le
  infer_instance

/-- Fraction addition (no normalization). -/
def Frac.add (a b : Frac) : Frac := ⟨a.num * b.den + b.num * a.den, a.den * b.den⟩

/-- Fraction subtraction (no normalization). -/
def Frac.sub (a b : Frac) : Frac := ⟨a.num * b.den - b.num * a.den, a.den * b.den⟩

/-- Fraction multiplication. -/
def Frac.mul (a b : Frac) : Frac := ⟨a.num * b.num, a.den * b.den⟩

/-- Absolute value of a fraction. -/
def Frac.abs (a : Frac) : Frac := ⟨|a.num|, |a.den|⟩

/-- Fraction division; the sign of the divisor is moved to the numerator so
that denominators stay positive. -/
def Frac.div (a b : Frac) : Frac :=
  if b.num < 0 then ⟨-(a.num * b.den), a.den * -b.num⟩ else ⟨a.num * b.den, a.den * b.num⟩

/-- Guarded quotient of two integers as a fraction: a zero denominator yields
the defined value 0, mirroring the spec's explicit degenerate handling
("defined statistic of zero" rather than a division-by-zero error). -/
def fracOfDiv (a b : Int) : Frac := if b = 0 then ⟨0, 1⟩ else ⟨a, b⟩

/-- Modelled from the spec: `AnalysisOptions` of the missing
`hunter/series.py` — recognized options with their defaults
(`window_len` unbounded, `max_pvalue` 0.001, `min_magnitude` 0.0,
`orig_edivisive` off), plus the permutation-trial count (default in the
hundreds) and the fixed default seed of the reproducible shuffle source. -/
structure AnalysisOptions where
  window_len : Option Nat := none
  max_pvalue : Frac := ⟨1, 1000⟩
  min_magnitude : Frac := ⟨0, 1⟩
  orig_edivisive : Bool := false
  permutations : Nat := 100
  seed : Nat := 48
deriving DecidableEq

/-- Integer absolute value. -/
def iabs (x : Int) : Int := if x < 0 then -x else x

/-- Twice the median of an integer list (kept doubled to stay in `Int`);
the empty list yields the defined value 0. -/
def med2 (l : List Int) : Int :=
  let s := l.insertionSort (· ≤ ·)
  let n := l.length
  if n % 2 = 1 then 2 * s.getD (n / 2) 0
  else if n = 0 then 0
  else s.getD (n / 2 - 1) 0 + s.getD (n / 2) 0

/-- Sum of `|x - y|` over all unordered pairs of distinct positions. -/
def pairAbsSum : List Int → Int
  | [] => 0
  | x :: xs => (xs.map (fun y => iabs (x - y))).sum + pairAbsSum xs

/-- Sum of `|x - y|` over all cross pairs of two lists. -/
def crossAbsSum (l r : List Int) : Int :=
  (l.map (fun x => (r.map (fun y => iabs (x - y))).sum)).sum

/-- Number of unordered pairs of distinct positions in a list of length `n`. -/
def choose2 (n : Nat) : Nat := n * (n - 1) / 2

/-- Mean of the pairwise within-sample distances (0 for samples of size < 2). -/
def withinMean (l : List Int) : Frac := fracOfDiv (pairAbsSum l) (choose2 l.length)

/-- Modelled from the spec: the divergence statistic of the missing
change-point algorithm (`hunter/analysis.py`).  For sub-samples `X` (size m)
and `Y` (size n) it is `m·n/(m+n) · (2·A − B − C)` where `B`, `C` are the
mean within-sample pairwise distances.  In the default robust
("with medians") variant the between-sample term `A` is the median-based
location distance `|median X − median Y|`; with `orig_edivisive` set, `A` is
the mean cross-pair distance of the originally published statistic. -/
def divergence (opts : AnalysisOptions) (left right : List Int) : Frac :=
  let m : Int := left.length
  let n : Int := right.length
  let coef := fracOfDiv (m * n) (m + n)
  if opts.orig_edivisive then
    let a := fracOfDiv (crossAbsSum left right) (m * n)
    coef.mul (((Frac.ofInt 2).mul a).sub ((withinMean left).add (withinMean right)))
  else
    let a2 := Frac.ofInt (iabs (med2 left - med2 right))
    coef.mul (a2.sub ((withinMean left).add (withinMean right)))

/-- Modelled from the spec: interior candidate split offsets of an interval of
the given length; when `window_len` is set the search is limited to that many
samples on each side of the interval midpoint. -/
def candidates (opts : AnalysisOptions) (len : Nat) : List Nat :=
  match opts.window_len with
  | none => List.range' 1 (len - 1)
  | some w =>
    let mid := len / 2
    let lo := max 1 (mid - w)
    let hi := min (len - 1) (mid + w)
    List.range' lo (hi + 1 - lo)

/-- The running maximum of `f` over a list of offsets: the first offset
attaining the maximal value, starting from an optional initial best. -/
def pickMax (f : Nat → Frac) : Option (Nat × Frac) → List Nat → Option (Nat × Frac)
  | best, [] => best
  | best, k :: ks =>
    let st := f k
    match best with
    | none => pickMax f (some (k, st)) ks
    | some (k0, s0) =>
      pickMax f (if s0.blt st then some (k, st) else some (k0, s0)) ks

/-- Modelled from the spec: the interior split offset maximizing the
divergence statistic (first such offset on ties), with the statistic value. -/
def maxStat (opts : AnalysisOptions) (seg : List Int) : Option (Nat × Frac) :=
  pickMax (fun k => divergence opts (seg.take k) (seg.drop k)) none
    (candidates opts seg.length)

/-- Modelled from the spec: the deterministic pseudo-random source used for
permutation shuffling (a 32-bit linear congruential generator); the spec
requires the shuffle randomness to be fixed/reproducible. -/
def lcg (s : Nat) : Nat := (1664525 * s + 1013904223) % 4294967296

/-- Iterated generator steps (the generator state after `n` draws). -/
def lcgIter (n s : Nat) : Nat := lcg^[n] s

/-- Swap the elements at two positions of a list. -/
def swapIdx (l : List Int) (i j : Nat) : List Int :=
  let xi := l.getD i 0
  let xj := l.getD j 0
  (l.set i xj).set j xi

/-- Fisher–Yates shuffling pass, from position `m` down to 1, threading the
generator state. -/
def shuffleGo : List Int → Nat → Nat → List Int × Nat
  | l, s, 0 => (l, s)
  | l, s, m + 1 =>
    let s' := lcg s
    let j := s' % (m + 2)
    shuffleGo (swapIdx l (m + 1) j) s' m

/-- Modelled from the spec: one deterministic shuffle of a list, returning
the shuffled list and the advanced generator state. -/
def shuffle (l : List Int) (s : Nat) : List Int × Nat :=
  shuffleGo l s (l.length - 1)

/-- Modelled from the spec: the permutation trials — shuffle the interval the
configured number of times and count the shuffles whose maximal statistic
meets or exceeds the observed one. -/
def permCount (opts : AnalysisOptions) (seg : List Int) (obs : Frac) :
    Nat → Nat → Nat × Nat
  | 0, s => (0, s)
  | t + 1, s =>
    let p := shuffle seg s
    let hit : Nat :=
      match maxStat opts p.1 with
      | none => 0
      | some ks => if obs.ble ks.2 then 1 else 0
    let r := permCount opts seg obs t p.2
    (hit + r.1, r.2)

/-- Mean of an integer list as a fraction (0 for the empty list, which the
algorithm never produces: callers guard against empty windows). -/
def meanFrac (l : List Int) : Frac := fracOfDiv l.sum l.length

/-- Population variance of an integer list as a fraction. -/
def varFrac (l : List Int) : Frac :=
  let n : Int := l.length
  let s := l.sum
  fracOfDiv ((l.map (fun x => (n * x - s) ^ 2)).sum) (n ^ 3)

/-- Modelled from the spec: `ComparativeStats` of the missing
`hunter/analysis.py` — result of comparing two numeric samples.  The source
stores standard deviations; they are irrational, so the embedding carries
the variances (`var_1 = std_1²`, `var_2 = std_2²`); no verified claim
inspects the standard deviations. -/
structure ComparativeStats where
  mean_1 : Frac
  mean_2 : Frac
  var_1 : Frac
  var_2 : Frac
  pvalue : Frac
deriving DecidableEq

/-- Modelled from the spec: `100 × (mean_2 − mean_1) / |mean_1|`, with the
all-zero-baseline degenerate case handled explicitly as the defined value 0. -/
def ComparativeStats.forward_change_percent (s : ComparativeStats) : Frac :=
  if s.mean_1.num = 0 then ⟨0, 1⟩
  else (Frac.ofInt 100).mul ((s.mean_2.sub s.mean_1).div s.mean_1.abs)

/-- Modelled from the spec: `magnitude() = |forward_change_percent| / 100`. -/
def ComparativeStats.magnitude (s : ComparativeStats) : Frac :=
  s.forward_change_percent.abs.div (Frac.ofInt 100)

/-- Comparative statistics of two samples with a given p-value. -/
def compStats (left right : List Int) (pv : Frac) : ComparativeStats :=
  ⟨meanFrac left, meanFrac right, varFrac left, varFrac right, pv⟩

/-- A change point produced by the detection loop: absolute index and the
comparison statistics of the two segments split at it. -/
structure RawChangePoint where
  index : Nat
  stats : ComparativeStats
deriving DecidableEq

/-- Modelled from the spec: test one candidate interval `[a, b)` — find the
interior offset with maximal divergence, estimate the empirical p-value by
permutation trials, and accept the split iff `pvalue ≤ max_pvalue` and the
relative magnitude of the mean shift is at least `min_magnitude`. -/
def testInterval (opts : AnalysisOptions) (xs : List Int) (a b : Nat) (s : Nat) :
    Option RawChangePoint × Nat :=
  let seg := (xs.drop a).take (b - a)
  match maxStat opts seg with
  | none => (none, s)
  | some (k, obs) =>
    let cr := permCount opts seg obs opts.permutations s
    let left := seg.take k
    let right := seg.drop k
    let stats := compStats left right ⟨cr.1, opts.permutations⟩
    if Frac.ble ⟨cr.1, opts.permutations⟩ opts.max_pvalue &&
        Frac.ble opts.min_magnitude stats.magnitude then
      (some ⟨a + k, stats⟩, cr.2)
    else (none, cr.2)

/-- Modelled from the spec: the hierarchical divisive loop — a FIFO queue of
candidate intervals; an accepted split records the change point and enqueues
the two sub-intervals, a rejected interval is discarded whole; discovered
points are finally sorted by index ascending.  The fuel argument bounds the
number of processed intervals (at most `2·N+1` in any run). -/
def detectGo (opts : AnalysisOptions) (xs : List Int) :
    Nat → List (Nat × Nat) → List RawChangePoint → Nat → List RawChangePoint
  | 0, _, acc, _ => acc.insertionSort (fun c d => c.index ≤ d.index)
  | _ + 1, [], acc, _ => acc.insertionSort (fun c d => c.index ≤ d.index)
  | fuel + 1, (a, b) :: q, acc, s =>
    match testInterval opts xs a b s with
    | (none, s') => detectGo opts xs fuel q acc s'
    | (some cp, s') =>
      detectGo opts xs fuel (q ++ [(a, cp.index), (cp.index, b)]) (cp :: acc) s'

/-- Modelled from the spec: E-Divisive change-point detection over one numeric
sequence, starting from the whole range `[0, N)` with the configured seed. -/
def detect (opts : AnalysisOptions) (xs : List Int) : List RawChangePoint :=
  detectGo opts xs (2 * xs.length + 1) [(0, xs.length)] [] opts.seed

/-- Modelled from the spec: static metadata of one metric. -/
structure Metric where
  direction : Int := 1
  scale : Frac := ⟨1, 1⟩
deriving DecidableEq

/-- Modelled from the spec: the raw input unit of `hunter/series.py` — a test
name, optional branch, shared time axis, metric metadata, per-metric data and
per-attribute values (association lists keep the Python insertion order). -/
structure Series where
  test_name : String
  branch : Option String
  time : List Int
  metrics : List (String × Metric)
  data : List (String × List Int)
  attributes : List (String × List String)
deriving DecidableEq

/-- Modelled from the spec: one detected shift of a single metric. -/
structure ChangePoint where
  metric : String
  index : Nat
  stats : ComparativeStats
deriving DecidableEq

/-- Modelled from the spec: all change points sharing one index. -/
structure ChangePointGroup where
  index : Nat
  changes : List ChangePoint
deriving DecidableEq

/-- Modelled from the spec: a `Series` together with its per-metric change
points.  The bookkeeping is an `Option` because the corrupted state the spec's
error-handling design describes (change-point bookkeeping missing/`None`) must
be representable. -/
structure AnalyzedSeries where
  series : Series
  options : AnalysisOptions
  change_points : Option (List (String × List ChangePoint))
deriving DecidableEq

/-- Modelled from the spec: `Series.analyze` — run detection independently per
metric over the metric's full data sequence; the input series is not mutated
(the result holds it unchanged). -/
def Series.analyze (s : Series) (opts : AnalysisOptions) : AnalyzedSeries :=
  ⟨s, opts,
    some (s.data.map (fun md =>
      (md.1, (detect opts md.2).map (fun rc => ⟨md.1, rc.index, rc.stats⟩))))⟩

/-- The per-metric change-point lists (empty when the bookkeeping is absent). -/
def AnalyzedSeries.cpList (a : AnalyzedSeries) : List (String × List ChangePoint) :=
  a.change_points.getD []

/-- The change-point indices of one metric. -/
def AnalyzedSeries.cpIndexes (a : AnalyzedSeries) (metric : String) : List Nat :=
  match a.cpList.lookup metric with
  | none => []
  | some cps => cps.map (·.index)

/-- Length of the time axis. -/
def AnalyzedSeries.seriesLen (a : AnalyzedSeries) : Nat := a.series.time.length

/-- Modelled from the spec: the per-metric change points merged and grouped by
identical index into `ChangePointGroup`s, ordered by index ascending. -/
def AnalyzedSeries.change_points_by_time (a : AnalyzedSeries) : List ChangePointGroup :=
  let idxs := ((a.cpList.map (fun mc => mc.2.map (·.index))).flatten.dedup).insertionSort (· ≤ ·)
  idxs.map (fun i => ⟨i, (a.cpList.map (fun mc => mc.2.filter (fun c => c.index = i))).flatten⟩)

/-- Modelled from the spec: `get_stable_range(metric, index)` — the `[start, stop)`
sub-range of the time axis containing `index`, bounded by the nearest change
points of the metric on either side or by the series boundaries. -/
def AnalyzedSeries.get_stable_range (a : AnalyzedSeries) (metric : String) (idx : Nat) :
    Nat × Nat :=
  let ks := a.cpIndexes metric
  ((ks.filter (fun k => k ≤ idx)).foldl max 0,
   (ks.filter (fun k => idx < k)).foldl min a.seriesLen)

/-- Minimal JSON value tree for the serializable structures of the model. -/
inductive Json where
  | str : String → Json
  | num : Frac → Json
  | arr : List Json → Json
  | obj : List (String × Json) → Json

/-- Serializable form of `ComparativeStats`. -/
def ComparativeStats.to_json (s : ComparativeStats) : Json :=
  Json.obj [("mean_1", Json.num s.mean_1), ("mean_2", Json.num s.mean_2),
    ("var_1", Json.num s.var_1), ("var_2", Json.num s.var_2),
    ("pvalue", Json.num s.pvalue)]

/-- Serializable form of one change-point group given its timestamp. -/
def groupJson (t : Int) (g : ChangePointGroup) : Json :=
  Json.obj [("index", Json.num (Frac.ofInt g.index)), ("time", Json.num (Frac.ofInt t)),
    ("changes", Json.arr (g.changes.map (fun c =>
      Json.obj [("metric", Json.str c.metric),
        ("forward_change_percent", Json.num c.stats.forward_change_percent),
        ("stats", c.stats.to_json)])))]

/-- Serializable forms of the groups; `none` when some group's index has no
timestamp on the time axis (the out-of-range lookup a Python implementation
would raise on). -/
def groupsJson (time : List Int) : List ChangePointGroup → Option (List Json)
  | [] => some []
  | g :: gs =>
    match time.get? g.index, groupsJson time gs with
    | some t, some rest => some (groupJson t g :: rest)
    | _, _ => none

/-- Modelled from the spec: `AnalyzedSeries.to_json()` — the test name and the
per-group serializable structure; `none` exactly when a timestamp lookup is
out of range. -/
def AnalyzedSeries.to_json (a : AnalyzedSeries) : Option Json :=
  match groupsJson a.series.time a.change_points_by_time with
  | none => none
  | some gs => some (Json.obj [(a.series.test_name, Json.arr gs)])

/-- Modelled from the spec: the Welch-style two-sample p-value.  The spec
fixes only its degenerate behavior (samples of size ≤ 1 are permitted and
must be treated as maximally uncertain, p-value 1, instead of dividing by
zero); the non-degenerate branch is a rational surrogate decreasing in the
squared t-statistic `t² = (mean₁−mean₂)²/(var₁/n₁+var₂/n₂)`. -/
def welchPValue (l r : List Int) : Frac :=
  if l.length ≤ 1 ∨ r.length ≤ 1 then ⟨1, 1⟩
  else
    let d := (meanFrac l).sub (meanFrac r)
    let se2 := ((varFrac l).div (Frac.ofInt l.length)).add
      ((varFrac r).div (Frac.ofInt r.length))
    if se2.num = 0 then (if d.num = 0 then ⟨1, 1⟩ else ⟨0, 1⟩)
    else (Frac.ofInt 1).div ((Frac.ofInt 1).add ((d.mul d).div se2))

/-- Modelled from the spec: the sample of a metric selected by an optional
split point — `none` selects the whole series, an integer selects the stable
sub-range around that point. -/
def sampleOf (a : AnalyzedSeries) (metric : String) (pt : Option Nat) : List Int :=
  let xs := (a.series.data.lookup metric).getD []
  match pt with
  | none => xs
  | some i =>
    let r := a.get_stable_range metric i
    (xs.drop r.1).take (r.2 - r.1)

/-- Modelled from the spec: the result of comparing two analyzed series. -/
structure SeriesComparison where
  stats : List (String × ComparativeStats)
deriving DecidableEq

/-- The comparative statistics of one metric: the two selected samples with
their Welch-style p-value. -/
def compareEntry (a : AnalyzedSeries) (pa : Option Nat) (b : AnalyzedSeries)
    (pb : Option Nat) (m : String) : ComparativeStats :=
  compStats (sampleOf a m pa) (sampleOf b m pb)
    (welchPValue (sampleOf a m pa) (sampleOf b m pb))

/-- Modelled from the spec: `compare(series_a, point_a, series_b, point_b)` —
for each metric present in both series (iteration order of the first), the
two-sample comparative statistics of the selected samples. -/
def compare (a : AnalyzedSeries) (pa : Option Nat) (b : AnalyzedSeries) (pb : Option Nat) :
    SeriesComparison :=
  ⟨a.series.data.filterMap (fun md =>
    match b.series.data.lookup md.1 with
    | none => none
    | some _ => some (md.1, compareEntry a pa b pb md.1))⟩

/-- Modelled from the spec: the two error kinds the core distinguishes — plain
bad input (Python `ValueError`) and corrupted internal analysis state
(Python `RuntimeError`, a logic error). -/
inductive HunterErr where
  | valueError : String → HunterErr
  | runtimeError : String → HunterErr
deriving DecidableEq

/-- `true` iff the list is strictly increasing. -/
def strictIncr : List Int → Bool
  | [] => true
  | [_] => true
  | a :: b :: t => decide (a < b) && strictIncr (b :: t)

/-- Modelled from the spec: `_validate_append` — the validation rules checked
before any append mutates state, reported in order: corrupted change-point
bookkeeping (a `runtimeError`), then the plain bad-input rules (`valueError`):
non-empty `new_data`, known metrics only, time values strictly greater than
every existing time and strictly increasing, and per-metric / per-attribute
lengths matching the length of `time`. -/
def AnalyzedSeries.validate_append (a : AnalyzedSeries) (time : List Int)
    (new_data : List (String × List Int)) (attrs : List (String × List String)) :
    Option HunterErr :=
  if a.change_points.isNone then
    some (HunterErr.runtimeError "corrupted change_points state")
  else if new_data.isEmpty then
    some (HunterErr.valueError "new_data must not be empty")
  else if !(new_data.all (fun md => (a.series.metrics.lookup md.1).isSome)) then
    some (HunterErr.valueError "unknown metric")
  else if !(time.all (fun t => a.series.time.all (fun t0 => decide (t0 < t)))) then
    some (HunterErr.valueError "time values must be greater than existing ones")
  else if !(strictIncr time) then
    some (HunterErr.valueError "time values must be increasing")
  else if !(new_data.all (fun md => md.2.length = time.length)) then
    some (HunterErr.valueError "new data length mismatch")
  else if !(attrs.all (fun ad => ad.2.length = time.length)) then
    some (HunterErr.valueError "attribute length mismatch")
  else none

/-- Modelled from the spec: incremental re-analysis of one metric — keep all
previously found change points and re-run detection on the trailing region
since the last change point (the start of the last stable range), shifting
the newly found indices by the region start. -/
def appendMetricCPs (opts : AnalysisOptions) (xs : List Int) (m : String)
    (cps : List ChangePoint) : List ChangePoint :=
  let start := (cps.map (·.index)).foldl max 0
  cps ++ (detect opts (xs.drop start)).map (fun rc => ⟨m, start + rc.index, rc.stats⟩)

/-- The per-metric bookkeeping update of `append`: metrics without new data
keep their change points; supplied metrics are incrementally re-analyzed over
their extended data. -/
def appendEntry (opts : AnalysisOptions) (new_data : List (String × List Int))
    (dat : List (String × List Int)) (m : String) (cps : List ChangePoint) :
    List ChangePoint :=
  match new_data.lookup m with
  | none => cps
  | some _ => appendMetricCPs opts ((dat.lookup m).getD []) m cps

/-- The series extended by the appended samples: the time axis grows by the
new time values and each supplied metric's data (and attribute) sequence by
its new values. -/
def extendSeries (s : Series) (time : List Int)
    (new_data : List (String × List Int)) (attrs : List (String × List String)) : Series :=
  ⟨s.test_name, s.branch, s.time ++ time, s.metrics,
    s.data.map (fun md =>
      match new_data.lookup md.1 with
      | none => md
      | some vs => (md.1, md.2 ++ vs)),
    s.attributes.map (fun ad =>
      match attrs.lookup ad.1 with
      | none => ad
      | some vs => (ad.1, ad.2 ++ vs))⟩

/-- Modelled from the spec: `AnalyzedSeries.append` — validate, then extend the
time axis and the supplied metrics' data/attribute sequences, and re-run
detection incrementally on each supplied metric's trailing region since its
last change point, keeping all previously found change points.  A validation
failure aborts the operation with the error and no new state. -/
def AnalyzedSeries.append (a : AnalyzedSeries) (time : List Int)
    (new_data : List (String × List Int)) (attrs : List (String × List String)) :
    Except HunterErr AnalyzedSeries :=
  match a.validate_append time new_data attrs with
  | some e => Except.error e
  | none =>
    let s' := extendSeries a.series time new_data attrs
    Except.ok ⟨s', a.options,
      some ((a.change_points.getD []).map (fun mc =>
        (mc.1, appendEntry a.options new_data s'.data mc.1 mc.2)))⟩

/-- Modelled from the spec: `can_append` — the non-throwing boolean pre-check
of `append`, a pure dry run over the unchanged snapshot. -/
def AnalyzedSeries.can_append (a : AnalyzedSeries) (time : List Int)
    (new_data : List (String × List Int)) (attrs : List (String × List String)) : Bool :=
  (a.validate_append time new_data attrs).isNone

end Hunter

namespace Hunter

/-! Reference data of the test scenarios (values scaled by 100). -/

/-- `series1` of the reference scenario: a shift from ~1.0 to ~0.5 at index 6. -/
def series1 : List Int := [102, 95, 99, 100, 112, 90, 50, 51, 48, 48, 55]

/-- `series2` of the reference scenario: a shift from ~2.0 to ~1.8 at index 4. -/
def series2 : List Int := [202, 203, 201, 204, 182, 185, 179, 181, 180, 176, 178]

/-- The reference two-metric series of the test scenarios. -/
def refSeries : Series :=
  ⟨"test", none, [0, 1, 2, 3, 4, 5, 6, 7, 8, 9, 10],
    [("series1", ⟨1, ⟨1, 1⟩⟩), ("series2", ⟨1, ⟨1, 1⟩⟩)],
    [("series1", series1), ("series2", series2)], []⟩

/-- Default analysis options. -/
def defaultOpts : AnalysisOptions := {}

/-- Options with `min_magnitude = 0.2` (the `C5` scenario). -/
def optsMag : AnalysisOptions := { min_magnitude := ⟨1, 5⟩ }

/-- A single-metric series over a given data list (time axis `0, …, N−1`),
as built by the degenerate-input test scenario. -/
def mkSeries (xs : List Int) : Series :=
  ⟨"test", none, (List.range xs.length).map Int.ofNat, [("series1", ⟨1, ⟨1, 1⟩⟩)],
    [("series1", xs)], []⟩

end Hunter

namespace HunterReport

open Hunter

/-! The report layer, translated from `hunter/report.py`. -/

/-- `ReportType` of `hunter/report.py`: the two report kinds. -/
inductive ReportType where
  | log : ReportType
  | json : ReportType
deriving DecidableEq

/-- Four-digit lowercase hexadecimal rendering of a code point. -/
def hex4 (n : Nat) : String :=
  let d := fun k => "0123456789abcdef".toList.getD (n / 16 ^ k % 16) '0'
  String.mk [d 3, d 2, d 1, d 0]

/-- JSON string escaping as performed by Python's `json.dumps` with its
default `ensure_ascii=True`. -/
def jsonEscapeChar (c : Char) : String :=
  if c = '"' then "\\\""
  else if c = '\\' then "\\\\"
  else if c = '\n' then "\\n"
  else if c = '\t' then "\\t"
  else if c = '\r' then "\\r"
  else if c.toNat < 32 ∨ 126 < c.toNat then "\\u" ++ hex4 c.toNat
  else String.singleton c

/-- A JSON string literal with escaping. -/
def jsonString (s : String) : String :=
  "\"" ++ String.join (s.toList.map jsonEscapeChar) ++ "\""

/-- Decimal rendering of a `Frac` as `num/den` (stand-in for Python float
rendering, which is not modelled bit-exactly; no verified claim depends on
the rendering of a number). -/
def fracText (f : Frac) : String :=
  (if f.num < 0 then "-" else "") ++ toString (iabs f.num).toNat ++ "/" ++
    toString (iabs f.den).toNat

mutual

/-- Serialization of the JSON tree in the format of Python's `json.dumps`
(default separators `", "` and `": "`). -/
def jsonDumps : Json → String
  | Json.str s => jsonString s
  | Json.num f => fracText f
  | Json.arr xs => "[" ++ jsonDumpsList xs ++ "]"
  | Json.obj ms => "\x7b" ++ jsonDumpsFields ms ++ "\x7d"

/-- Comma-separated serialization of array members. -/
def jsonDumpsList : List Json → String
  | [] => ""
  | [x] => jsonDumps x
  | x :: xs => jsonDumps x ++ ", " ++ jsonDumpsList xs

/-- Comma-separated serialization of object fields. -/
def jsonDumpsFields : List (String × Json) → String
  | [] => ""
  | [(k, v)] => jsonString k ++ ": " ++ jsonDumps v
  | (k, v) :: ms => jsonString k ++ ": " ++ jsonDumps v ++ ", " ++ jsonDumpsFields ms

end

/-- Left-justified padding to 16 columns (Python's `"{:16}"`). -/
def padTo16 (s : String) : String :=
  s ++ String.mk (List.replicate (16 - s.length) ' ')

/-- Stand-in for Python's `"{:#8.3g}"` float field (the rendering itself is
not modelled bit-exactly; no verified claim depends on it). -/
def fmtG (f : Frac) : String := fracText f

/-- Stand-in for Python's `"{:+6.1f}"` percent field. -/
def fmtPct (f : Frac) : String :=
  (if f.num * f.den < 0 then "" else "+") ++ fracText f

/-- `RegressionsReport` of `hunter/report.py`: regressions as pairs of metric
name and comparative statistics. -/
structure RegressionsReport where
  regressions : List (String × ComparativeStats)

/-- `RegressionsReport.__format_log`: `"<test_name>: OK"` for an empty
regressions list, otherwise one formatted line per regression. -/
def RegressionsReport.format_log (r : RegressionsReport) (test_name : String) : String :=
  if r.regressions.isEmpty then test_name ++ ": OK"
  else
    r.regressions.foldl (fun out ms =>
      out ++ "\n    " ++ padTo16 ms.1 ++ ": " ++ fmtG ms.2.mean_1 ++ " --> " ++
        fmtG ms.2.mean_2 ++ " (" ++ fmtPct ms.2.forward_change_percent ++ "%)")
      (test_name ++ ":")

/-- Serializable form of one regression entry (`{"metric": …}` updated with
the statistics fields). -/
def regressionJson (m : String) (st : ComparativeStats) : Json :=
  Json.obj [("metric", Json.str m), ("mean_1", Json.num st.mean_1),
    ("mean_2", Json.num st.mean_2), ("var_1", Json.num st.var_1),
    ("var_2", Json.num st.var_2), ("pvalue", Json.num st.pvalue)]

/-- `RegressionsReport.__format_json`: `json.dumps({test_name: []})` for an
empty regressions list, otherwise the object mapping the test name to the
list of regression entries. -/
def RegressionsReport.format_json (r : RegressionsReport) (test_name : String) : String :=
  if r.regressions.isEmpty then jsonDumps (Json.obj [(test_name, Json.arr [])])
  else
    jsonDumps (Json.obj [(test_name,
      Json.arr (r.regressions.map (fun ms => regressionJson ms.1 ms.2)))])

/-- `RegressionsReport.produce_report`: dispatch on the report type. -/
def RegressionsReport.produce_report (r : RegressionsReport) (test_name : String)
    (t : ReportType) : String :=
  match t with
  | ReportType.log => r.format_log test_name
  | ReportType.json => r.format_json test_name

end HunterReport

open Hunter HunterReport

/-- The change point detection finds for `series1` under default options:
index 6, left segment mean 598/6 (≈ 0.997 unscaled), right segment mean
252/5 (≈ 0.504 unscaled), empirical p-value 0/100. -/
def cpS1 : ChangePoint :=
  ⟨"series1", 6, ⟨⟨598, 6⟩, ⟨252, 5⟩, ⟨9840, 216⟩, ⟨830, 125⟩, ⟨0, 100⟩⟩⟩

/-- The change point detection finds for `series2` under default options:
index 4, left segment mean 810/4 (≈ 2.025 unscaled), right segment mean
1261/7 (≈ 1.801 unscaled), empirical p-value 0/100. -/
def cpS2 : ChangePoint :=
  ⟨"series2", 4, ⟨⟨810, 4⟩, ⟨1261, 7⟩, ⟨80, 64⟩, ⟨2492, 343⟩, ⟨0, 100⟩⟩⟩


/-- A tiny two-sample series used to witness determinism (name `a`). -/
def detSeriesA : Series := ⟨"a", none, [0, 1], [("m", ⟨1, ⟨1, 1⟩⟩)], [("m", [5, 6])], []⟩

/-- The same data under a different name, branch and time axis (name `b`). -/
def detSeriesB : Series :=
  ⟨"b", some "dev", [7, 8], [("m", ⟨1, ⟨1, 1⟩⟩)], [("m", [5, 6])], []⟩

/-- Placeholder comparative statistics for hand-built analyzed series. -/
def w2Stats : ComparativeStats := ⟨⟨0, 1⟩, ⟨0, 1⟩, ⟨0, 1⟩, ⟨0, 1⟩, ⟨0, 1⟩⟩

/-- A small analyzed series with one change point at index 1. -/
def w2Base : AnalyzedSeries :=
  ⟨⟨"t", none, [0, 1, 2], [("m", ⟨1, ⟨1, 1⟩⟩)], [("m", [10, 10, 12])], []⟩,
    defaultOpts, some [("m", [⟨"m", 1, w2Stats⟩])]⟩

/-- The result of appending the sample 13 at time 3 to `w2Base`. -/
def w2After : AnalyzedSeries :=
  ⟨⟨"t", none, [0, 1, 2, 3], [("m", ⟨1, ⟨1, 1⟩⟩)], [("m", [10, 10, 12, 13])], []⟩,
    defaultOpts, some [("m", [⟨"m", 1, w2Stats⟩])]⟩

/-- The series backing the error-handling witnesses. -/
def w8Series : Series := ⟨"t", none, [0, 1], [("m", ⟨1, ⟨1, 1⟩⟩)], [("m", [5, 6])], []⟩

/-- An analyzed series whose change-point bookkeeping has been corrupted to
`none` (as the validation test does). -/
def w8Bad : AnalyzedSeries := ⟨w8Series, defaultOpts, none⟩

/-- A healthy analyzed series over the same data. -/
def w8Good : AnalyzedSeries := ⟨w8Series, defaultOpts, some [("m", [])]⟩

/-- Options accepting any permutation p-value (used to exhibit an accepted
change point on a two-point series cheaply). -/
def opts2 : AnalysisOptions := { max_pvalue := ⟨2, 1⟩ }

/-- A two-point series with a jump, analyzed under `opts2`. -/
def w5Series : Series := ⟨"t", none, [0, 1], [("m", ⟨1, ⟨1, 1⟩⟩)], [("m", [0, 100])], []⟩

/-- The statistics `detect opts2 [0, 100]` attaches to its change point. -/
def w5Stats : ComparativeStats := ⟨⟨0, 1⟩, ⟨100, 1⟩, ⟨0, 1⟩, ⟨0, 1⟩, ⟨100, 100⟩⟩

/-- `test_1` of the single-point comparison scenario (values scaled by 100). -/
def cmpT1Series : Series :=
  ⟨"test_1", none, [0, 1, 2, 3, 4, 5, 6, 7, 8, 9, 10], [("data", ⟨1, ⟨1, 1⟩⟩)],
    [("data", [102, 95, 99, 100, 104, 102, 50, 51, 48, 48, 53])], []⟩

/-- `test_2` of the single-point comparison scenario: a single sample 0.51. -/
def cmpT2Series : Series :=
  ⟨"test_2", none, [1], [("data", ⟨1, ⟨1, 1⟩⟩)], [("data", [51])], []⟩

/-- A two-point series sharing the metric name of `cmpT2Series`. -/
def w7A : AnalyzedSeries :=
  (⟨"a", none, [0, 1], [("data", ⟨1, ⟨1, 1⟩⟩)], [("data", [100, 101])], []⟩ : Series).analyze
    defaultOpts


/-- Unfolding one generator step. -/
theorem lcgIter_succ (n s : Nat) : lcgIter (n + 1) s = lcgIter n (lcg s) :=
  Function.iterate_succ_apply lcg n s

/-- Iterating the generator splits over addition. -/
theorem lcgIter_add (a b s : Nat) : lcgIter (a + b) s = lcgIter b (lcgIter a s) := by
  unfold lcgIter
  rw [Nat.add_comm]
  exact Function.iterate_add_apply lcg b a s

/-- The shuffling pass advances the generator by exactly its step count,
independently of the list contents. -/
theorem shuffleGo_state : ∀ (m : Nat) (l : List Int) (s : Nat),
    (shuffleGo l s m).2 = lcgIter m s := by
  intro m
  induction m with
  | zero => intro l s; rfl
  | succ m ih =>
    intro l s
    rw [shuffleGo]
    rw [ih, lcgIter_succ]

/-- A shuffle advances the generator by the list length minus one. -/
theorem shuffle_state (l : List Int) (s : Nat) :
    (shuffle l s).2 = lcgIter (l.length - 1) s := by
  unfold shuffle
  exact shuffleGo_state _ _ _

/-- The permutation trials advance the generator by `t` shuffles' worth of
draws, independently of the hit counts. -/
theorem permCount_state {opts : AnalysisOptions} {seg : List Int} {obs : Frac} :
    ∀ (t s : Nat), (permCount opts seg obs t s).2 = lcgIter (t * (seg.length - 1)) s := by
  intro t
  induction t with
  | zero =>
    intro s
    rw [Nat.zero_mul]
    rfl
  | succ t ih =>
    intro s
    rw [permCount]
    rw [ih, shuffle_state, ← lcgIter_add]
    have h1 : seg.length - 1 + t * (seg.length - 1) = (t + 1) * (seg.length - 1) := by ring
    rw [h1]

/-- The permutation trials compose: counting `a + b` trials equals counting
`a` trials and then `b` more from the state the first `a` trials reach. -/
theorem permCount_add (opts : AnalysisOptions) (seg : List Int) (obs : Frac) :
    ∀ (a b s : Nat), permCount opts seg obs (a + b) s =
      ((permCount opts seg obs a s).1 +
        (permCount opts seg obs b (permCount opts seg obs a s).2).1,
       (permCount opts seg obs b (permCount opts seg obs a s).2).2) := by
  intro a
  induction a with
  | zero =>
    intro b s
    rw [Nat.zero_add]
    have h0 : (permCount opts seg obs 0 s) = ((0 : Nat), s) := rfl
    rw [h0]
    simp
  | succ a ih =>
    intro b s
    have h1 : a + 1 + b = (a + b) + 1 := by omega
    rw [h1, permCount, ih]
    conv_rhs => rw [permCount]
    simp [Nat.add_assoc]

/-- The divergence statistic reads only the `orig_edivisive` flag. -/
theorem divergence_congr {o1 o2 : AnalysisOptions}
    (h : o1.orig_edivisive = o2.orig_edivisive) (l r : List Int) :
    divergence o1 l r = divergence o2 l r := by
  unfold divergence
  rw [h]

/-- The candidate offsets read only the `window_len` option. -/
theorem candidates_congr {o1 o2 : AnalysisOptions}
    (h : o1.window_len = o2.window_len) (L : Nat) :
    candidates o1 L = candidates o2 L := by
  unfold candidates
  rw [h]

/-- The split search reads only the search options. -/
theorem maxStat_congr {o1 o2 : AnalysisOptions}
    (ho : o1.orig_edivisive = o2.orig_edivisive)
    (hw : o1.window_len = o2.window_len) (seg : List Int) :
    maxStat o1 seg = maxStat o2 seg := by
  unfold maxStat
  rw [candidates_congr hw]
  congr 1
  funext k
  exact divergence_congr ho _ _

/-- The permutation trials read only the search options. -/
theorem permCount_congr {o1 o2 : AnalysisOptions}
    (ho : o1.orig_edivisive = o2.orig_edivisive)
    (hw : o1.window_len = o2.window_len) (seg : List Int) (obs : Frac) :
    ∀ (t s : Nat), permCount o1 seg obs t s = permCount o2 seg obs t s := by
  intro t
  induction t with
  | zero => intro s; rfl
  | succ t ih =>
    intro s
    rw [permCount, permCount]
    rw [maxStat_congr ho hw, ih]

/-- One queue step of the divisive loop for a rejected interval. -/
theorem detectGo_cons_none {opts : AnalysisOptions} {xs : List Int} {a b s s' : Nat}
    {f : Nat} {q : List (Nat × Nat)} {acc : List RawChangePoint}
    (h : testInterval opts xs a b s = (none, s')) :
    detectGo opts xs (f + 1) ((a, b) :: q) acc s = detectGo opts xs f q acc s' := by
  rw [detectGo, h]

/-- One queue step of the divisive loop for an accepted interval. -/
theorem detectGo_cons_some {opts : AnalysisOptions} {xs : List Int} {a b s s' : Nat}
    {cp : RawChangePoint} {f : Nat} {q : List (Nat × Nat)} {acc : List RawChangePoint}
    (h : testInterval opts xs a b s = (some cp, s')) :
    detectGo opts xs (f + 1) ((a, b) :: q) acc s =
      detectGo opts xs f (q ++ [(a, cp.index), (cp.index, b)]) (cp :: acc) s' := by
  rw [detectGo, h]

/-- Any positive hit count over 100 trials exceeds the 0.001 threshold. -/
theorem ble_pvalue_reject {c : Nat} (h : 1 ≤ c) :
    Frac.ble ⟨(c : Int), (100 : Int)⟩ ⟨1, 1000⟩ = false := by
  unfold Frac.ble
  rw [decide_eq_false_iff_not]
  push_cast
  omega

/-- Chained evaluation of two consecutive blocks of permutation trials. -/
theorem permCount_chain {opts : AnalysisOptions} {seg : List Int} {obs : Frac}
    {a b s ca t1 cb t2 c : Nat}
    (h1 : permCount opts seg obs a s = (ca, t1))
    (h2 : permCount opts seg obs b t1 = (cb, t2))
    (hc : ca + cb = c) :
    permCount opts seg obs (a + b) s = (c, t2) := by
  rw [permCount_add, h1]
  dsimp only
  rw [h2, hc]

/-- A prefix of the trials counts at most as many hits as the whole run. -/
theorem permCount_le_prefix (opts : AnalysisOptions) (seg : List Int) (obs : Frac)
    (p r s : Nat) :
    (permCount opts seg obs p s).1 ≤ (permCount opts seg obs (p + r) s).1 := by
  rw [permCount_add]
  exact Nat.le_add_right _ _

/-- Evaluation scheme for `testInterval`: given the segment extraction, the
split search and the permutation count, the result is the guarded fold of
those values. -/
theorem testInterval_eval {opts : AnalysisOptions} {xs seg : List Int}
    {a b s k c s2 : Nat} {obs : Frac}
    (hseg : (xs.drop a).take (b - a) = seg)
    (hms : maxStat opts seg = some (k, obs))
    (hperm : opts.permutations = 100)
    (hpc : permCount opts seg obs 100 s = (c, s2)) :
    testInterval opts xs a b s =
      (if Frac.ble ⟨(c : Int), ((100 : Nat) : Int)⟩ opts.max_pvalue &&
          Frac.ble opts.min_magnitude
            (compStats (seg.take k) (seg.drop k)
              ⟨(c : Int), ((100 : Nat) : Int)⟩).magnitude then
        (some ⟨a + k, compStats (seg.take k) (seg.drop k)
          ⟨(c : Int), ((100 : Nat) : Int)⟩⟩, s2)
      else (none, s2)) := by
  unfold testInterval
  simp only [hseg, hms, hperm, hpc]

/-- Rejection scheme for `testInterval`: a hit inside any prefix of the
trials already exceeds the default `0.001` p-value threshold, so the
interval is rejected and only the generator state advances. -/
theorem testInterval_reject {opts : AnalysisOptions} {xs seg : List Int}
    {a b s k p c1 s1 : Nat} {obs : Frac}
    (hseg : (xs.drop a).take (b - a) = seg)
    (hms : maxStat opts seg = some (k, obs))
    (hperm : opts.permutations = 100)
    (hmax : opts.max_pvalue = ⟨1, 1000⟩)
    (hp : p ≤ 100)
    (hpre : permCount opts seg obs p s = (c1, s1))
    (hc1 : 1 ≤ c1) :
    testInterval opts xs a b s = (none, lcgIter (100 * (seg.length - 1)) s) := by
  have hcount : 1 ≤ (permCount opts seg obs 100 s).1 := by
    have e : p + (100 - p) = 100 := by omega
    have h2 := permCount_le_prefix opts seg obs p (100 - p) s
    rw [e, hpre] at h2
    exact le_trans hc1 h2
  have hble : Frac.ble ⟨((permCount opts seg obs 100 s).1 : Int),
      ((100 : Nat) : Int)⟩ ⟨1, 1000⟩ = false := ble_pvalue_reject hcount
  unfold testInterval
  simp only [hseg, hms, hperm, hmax, hble, Bool.false_and, Bool.false_eq_true,
    if_false, reduceIte]
  rw [permCount_state]

/-- First 25 permutation trials for the whole `series1` interval: no hits. -/
theorem pc_s1_a : permCount defaultOpts series1 ⟨390600, 1650⟩ 25 48 =
    (0, 2764895994) := by decide

/-- Trials 26–50 for the whole `series1` interval: no hits. -/
theorem pc_s1_b : permCount defaultOpts series1 ⟨390600, 1650⟩ 25 2764895994 =
    (0, 21782292) := by decide

/-- Trials 51–75 for the whole `series1` interval: no hits. -/
theorem pc_s1_c : permCount defaultOpts series1 ⟨390600, 1650⟩ 25 21782292 =
    (0, 1861884670) := by decide

/-- Trials 76–100 for the whole `series1` interval: no hits. -/
theorem pc_s1_d : permCount defaultOpts series1 ⟨390600, 1650⟩ 25 1861884670 =
    (0, 1036509496) := by decide

/-- All 100 permutation trials for the whole `series1` interval: no hits. -/
theorem pc_s1_full : permCount defaultOpts series1 ⟨390600, 1650⟩ 100 48 =
    (0, 1036509496) := by
  have h50 : permCount defaultOpts series1 ⟨390600, 1650⟩ (25 + 25) 48 =
      (0, 21782292) := permCount_chain pc_s1_a pc_s1_b rfl
  have h75 : permCount defaultOpts series1 ⟨390600, 1650⟩ (50 + 25) 48 =
      (0, 1861884670) := permCount_chain h50 pc_s1_c rfl
  have h100 : permCount defaultOpts series1 ⟨390600, 1650⟩ (75 + 25) 48 =
      (0, 1036509496) := permCount_chain h75 pc_s1_d rfl
  exact h100

/-- First 25 permutation trials for the whole `series2` interval: no hits. -/
theorem pc_s2_a : permCount defaultOpts series2 ⟨140448, 1386⟩ 25 48 =
    (0, 2764895994) := by decide

/-- Trials 26–50 for the whole `series2` interval: no hits. -/
theorem pc_s2_b : permCount defaultOpts series2 ⟨140448, 1386⟩ 25 2764895994 =
    (0, 21782292) := by decide

/-- Trials 51–75 for the whole `series2` interval: no hits. -/
theorem pc_s2_c : permCount defaultOpts series2 ⟨140448, 1386⟩ 25 21782292 =
    (0, 1861884670) := by decide

/-- Trials 76–100 for the whole `series2` interval: no hits. -/
theorem pc_s2_d : permCount defaultOpts series2 ⟨140448, 1386⟩ 25 1861884670 =
    (0, 1036509496) := by decide

/-- All 100 permutation trials for the whole `series2` interval: no hits. -/
theorem pc_s2_full : permCount defaultOpts series2 ⟨140448, 1386⟩ 100 48 =
    (0, 1036509496) := by
  have h50 : permCount defaultOpts series2 ⟨140448, 1386⟩ (25 + 25) 48 =
      (0, 21782292) := permCount_chain pc_s2_a pc_s2_b rfl
  have h75 : permCount defaultOpts series2 ⟨140448, 1386⟩ (50 + 25) 48 =
      (0, 1861884670) := permCount_chain h50 pc_s2_c rfl
  have h100 : permCount defaultOpts series2 ⟨140448, 1386⟩ (75 + 25) 48 =
      (0, 1036509496) := permCount_chain h75 pc_s2_d rfl
  exact h100

/-- Split search over all of `series1`: offset 6, statistic 390600/1650. -/
theorem ms_s1_full : maxStat defaultOpts series1 = some (6, ⟨390600, 1650⟩) := by decide

/-- Split search over all of `series2`: offset 4, statistic 140448/1386. -/
theorem ms_s2_full : maxStat defaultOpts series2 = some (4, ⟨140448, 1386⟩) := by decide

/-- Split search over `series1[0:6]`: offset 5, statistic 630/60. -/
theorem ms_s1_06 : maxStat defaultOpts [102, 95, 99, 100, 112, 90] =
    some (5, ⟨630, 60⟩) := by decide

/-- Split search over `series1[6:11]`: offset 4, statistic 244/30. -/
theorem ms_s1_611 : maxStat defaultOpts [50, 51, 48, 48, 55] =
    some (4, ⟨244, 30⟩) := by decide

/-- Split search over `series2[0:4]`: offset 3, statistic 24/12. -/
theorem ms_s2_04 : maxStat defaultOpts [202, 203, 201, 204] =
    some (3, ⟨24, 12⟩) := by decide

/-- Split search over `series2[4:11]`: offset 2, statistic 360/70. -/
theorem ms_s2_411 : maxStat defaultOpts [182, 185, 179, 181, 180, 176, 178] =
    some (2, ⟨360, 70⟩) := by decide

/-- The whole-range interval of `series1` is accepted at offset 6. -/
theorem ti_s1_full : testInterval defaultOpts series1 0 11 48 =
    (some ⟨6, ⟨⟨598, 6⟩, ⟨252, 5⟩, ⟨9840, 216⟩, ⟨830, 125⟩, ⟨0, 100⟩⟩⟩, 1036509496) := by
  have hseg : (series1.drop 0).take (11 - 0) = series1 := by decide
  rw [testInterval_eval hseg ms_s1_full rfl pc_s1_full]
  decide

/-- The sub-interval `[0, 6)` of `series1` is rejected (41 of 100 trials hit;
already 1 hit among the first 2). -/
theorem ti_s1_06 : testInterval defaultOpts series1 0 6 1036509496 =
    (none, 214452892) := by
  have hseg : (series1.drop 0).take (6 - 0) = [102, 95, 99, 100, 112, 90] := by decide
  have hpre : permCount defaultOpts [102, 95, 99, 100, 112, 90] ⟨630, 60⟩ 2 1036509496 =
      (1, 2907061266) := by decide
  rw [testInterval_reject hseg ms_s1_06 rfl rfl (by norm_num) hpre (by norm_num)]
  decide

/-- The sub-interval `[6, 11)` of `series1` is rejected (1 hit among the
first 8 trials). -/
theorem ti_s1_611 : testInterval defaultOpts series1 6 11 214452892 =
    (none, 1386386796) := by
  have hseg : (series1.drop 6).take (11 - 6) = [50, 51, 48, 48, 55] := by decide
  have hpre : permCount defaultOpts [50, 51, 48, 48, 55] ⟨244, 30⟩ 8 214452892 =
      (1, 209712444) := by decide
  rw [testInterval_reject hseg ms_s1_611 rfl rfl (by norm_num) hpre (by norm_num)]
  decide

/-- The whole-range interval of `series2` is accepted at offset 4. -/
theorem ti_s2_full : testInterval defaultOpts series2 0 11 48 =
    (some ⟨4, ⟨⟨810, 4⟩, ⟨1261, 7⟩, ⟨80, 64⟩, ⟨2492, 343⟩, ⟨0, 100⟩⟩⟩, 1036509496) := by
  have hseg : (series2.drop 0).take (11 - 0) = series2 := by decide
  rw [testInterval_eval hseg ms_s2_full rfl pc_s2_full]
  decide

/-- The sub-interval `[0, 4)` of `series2` is rejected (hit on the first
trial). -/
theorem ti_s2_04 : testInterval defaultOpts series2 0 4 1036509496 =
    (none, 1868227764) := by
  have hseg : (series2.drop 0).take (4 - 0) = [202, 203, 201, 204] := by decide
  have hpre : permCount defaultOpts [202, 203, 201, 204] ⟨24, 12⟩ 1 1036509496 =
      (1, 384253057) := by decide
  rw [testInterval_reject hseg ms_s2_04 rfl rfl (by norm_num) hpre (by norm_num)]
  decide

/-- The sub-interval `[4, 11)` of `series2` is rejected (hit on the first
trial). -/
theorem ti_s2_411 : testInterval defaultOpts series2 4 11 1868227764 =
    (none, 1386386796) := by
  have hseg : (series2.drop 4).take (11 - 4) = [182, 185, 179, 181, 180, 176, 178] := by
    decide
  have hpre : permCount defaultOpts [182, 185, 179, 181, 180, 176, 178] ⟨360, 70⟩ 1
      1868227764 = (1, 4111062170) := by decide
  rw [testInterval_reject hseg ms_s2_411 rfl rfl (by norm_num) hpre (by norm_num)]
  decide

/-- The detection run over `series1` under default options: exactly one
change point, at index 6. -/
theorem detect_s1 : detect defaultOpts series1 =
    [⟨6, ⟨⟨598, 6⟩, ⟨252, 5⟩, ⟨9840, 216⟩, ⟨830, 125⟩, ⟨0, 100⟩⟩⟩] := by
  unfold detect
  have hlen : series1.length = 11 := rfl
  have hseed : defaultOpts.seed = 48 := rfl
  rw [hlen, hseed]
  rw [show 2 * 11 + 1 = 22 + 1 from rfl]
  rw [detectGo_cons_some ti_s1_full]
  simp only [List.nil_append]
  rw [show (22 : Nat) = 21 + 1 from rfl]
  rw [detectGo_cons_none ti_s1_06]
  rw [show (21 : Nat) = 20 + 1 from rfl]
  rw [detectGo_cons_none ti_s1_611]
  decide

/-- The detection run over `series2` under default options: exactly one
change point, at index 4. -/
theorem detect_s2 : detect defaultOpts series2 =
    [⟨4, ⟨⟨810, 4⟩, ⟨1261, 7⟩, ⟨80, 64⟩, ⟨2492, 343⟩, ⟨0, 100⟩⟩⟩] := by
  unfold detect
  have hlen : series2.length = 11 := rfl
  have hseed : defaultOpts.seed = 48 := rfl
  rw [hlen, hseed]
  rw [show 2 * 11 + 1 = 22 + 1 from rfl]
  rw [detectGo_cons_some ti_s2_full]
  simp only [List.nil_append]
  rw [show (22 : Nat) = 21 + 1 from rfl]
  rw [detectGo_cons_none ti_s2_04]
  rw [show (21 : Nat) = 20 + 1 from rfl]
  rw [detectGo_cons_none ti_s2_411]
  decide

/-- The whole-range interval of `series1` is accepted at offset 6 also with
`min_magnitude = 0.2` (the shift is ≈ 49%). -/
theorem ti_s1_full_mag : testInterval optsMag series1 0 11 48 =
    (some ⟨6, ⟨⟨598, 6⟩, ⟨252, 5⟩, ⟨9840, 216⟩, ⟨830, 125⟩, ⟨0, 100⟩⟩⟩, 1036509496) := by
  have hseg : (series1.drop 0).take (11 - 0) = series1 := by decide
  have hms : maxStat optsMag series1 = some (6, ⟨390600, 1650⟩) := by
    rw [@maxStat_congr optsMag defaultOpts rfl rfl]
    exact ms_s1_full
  have hpc : permCount optsMag series1 ⟨390600, 1650⟩ 100 48 = (0, 1036509496) := by
    rw [@permCount_congr optsMag defaultOpts rfl rfl]
    exact pc_s1_full
  rw [testInterval_eval hseg hms rfl hpc]
  decide

/-- The sub-interval `[0, 6)` of `series1` is rejected under `optsMag` for
the same p-value reason as under the default options. -/
theorem ti_s1_06_mag : testInterval optsMag series1 0 6 1036509496 =
    (none, 214452892) := by
  have hseg : (series1.drop 0).take (6 - 0) = [102, 95, 99, 100, 112, 90] := by decide
  have hms : maxStat optsMag [102, 95, 99, 100, 112, 90] = some (5, ⟨630, 60⟩) := by
    rw [@maxStat_congr optsMag defaultOpts rfl rfl]
    exact ms_s1_06
  have hpre : permCount optsMag [102, 95, 99, 100, 112, 90] ⟨630, 60⟩ 2 1036509496 =
      (1, 2907061266) := by
    rw [@permCount_congr optsMag defaultOpts rfl rfl]
    decide
  rw [testInterval_reject hseg hms rfl rfl (by norm_num) hpre (by norm_num)]
  decide

/-- The sub-interval `[6, 11)` of `series1` is rejected under `optsMag`. -/
theorem ti_s1_611_mag : testInterval optsMag series1 6 11 214452892 =
    (none, 1386386796) := by
  have hseg : (series1.drop 6).take (11 - 6) = [50, 51, 48, 48, 55] := by decide
  have hms : maxStat optsMag [50, 51, 48, 48, 55] = some (4, ⟨244, 30⟩) := by
    rw [@maxStat_congr optsMag defaultOpts rfl rfl]
    exact ms_s1_611
  have hpre : permCount optsMag [50, 51, 48, 48, 55] ⟨244, 30⟩ 8 214452892 =
      (1, 209712444) := by
    rw [@permCount_congr optsMag defaultOpts rfl rfl]
    decide
  rw [testInterval_reject hseg hms rfl rfl (by norm_num) hpre (by norm_num)]
  decide

/-- The whole-range interval of `series2` is rejected with
`min_magnitude = 0.2`: the p-value is fine but the shift is only ≈ 11%. -/
theorem ti_s2_full_mag : testInterval optsMag series2 0 11 48 =
    (none, 1036509496) := by
  have hseg : (series2.drop 0).take (11 - 0) = series2 := by decide
  have hms : maxStat optsMag series2 = some (4, ⟨140448, 1386⟩) := by
    rw [@maxStat_congr optsMag defaultOpts rfl rfl]
    exact ms_s2_full
  have hpc : permCount optsMag series2 ⟨140448, 1386⟩ 100 48 = (0, 1036509496) := by
    rw [@permCount_congr optsMag defaultOpts rfl rfl]
    exact pc_s2_full
  rw [testInterval_eval hseg hms rfl hpc]
  decide

/-- The detection run over `series1` with `min_magnitude = 0.2`: still the
single change point at index 6. -/
theorem detect_s1_mag : detect optsMag series1 =
    [⟨6, ⟨⟨598, 6⟩, ⟨252, 5⟩, ⟨9840, 216⟩, ⟨830, 125⟩, ⟨0, 100⟩⟩⟩] := by
  unfold detect
  have hlen : series1.length = 11 := rfl
  have hseed : optsMag.seed = 48 := rfl
  rw [hlen, hseed]
  rw [show 2 * 11 + 1 = 22 + 1 from rfl]
  rw [detectGo_cons_some ti_s1_full_mag]
  simp only [List.nil_append]
  rw [show (22 : Nat) = 21 + 1 from rfl]
  rw [detectGo_cons_none ti_s1_06_mag]
  rw [show (21 : Nat) = 20 + 1 from rfl]
  rw [detectGo_cons_none ti_s1_611_mag]
  decide

/-- The detection run over `series2` with `min_magnitude = 0.2`: no change
points at all. -/
theorem detect_s2_mag : detect optsMag series2 = [] := by
  unfold detect
  have hlen : series2.length = 11 := rfl
  have hseed : optsMag.seed = 48 := rfl
  rw [hlen, hseed]
  rw [show 2 * 11 + 1 = 22 + 1 from rfl]
  rw [detectGo_cons_none ti_s2_full_mag]
  decide

/-- Evaluation of the reference analysis under default options. -/
theorem refAnalyze_eval : (refSeries.analyze defaultOpts).change_points =
    some [("series1", [cpS1]), ("series2", [cpS2])] := by
  have h : (refSeries.analyze defaultOpts).change_points =
      some [("series1", (detect defaultOpts series1).map
              (fun rc => ⟨"series1", rc.index, rc.stats⟩)),
            ("series2", (detect defaultOpts series2).map
              (fun rc => ⟨"series2", rc.index, rc.stats⟩))] := rfl
  rw [h, detect_s1, detect_s2]
  decide

/-- Evaluation of the reference analysis with `min_magnitude = 0.2`. -/
theorem refAnalyzeMag_eval : (refSeries.analyze optsMag).change_points =
    some [("series1", [cpS1]), ("series2", [])] := by
  have h : (refSeries.analyze optsMag).change_points =
      some [("series1", (detect optsMag series1).map
              (fun rc => ⟨"series1", rc.index, rc.stats⟩)),
            ("series2", (detect optsMag series2).map
              (fun rc => ⟨"series2", rc.index, rc.stats⟩))] := rfl
  rw [h, detect_s1_mag, detect_s2_mag]
  decide

/-- An element produced by `pickMax` either is the initial best or pairs an
offset of the scanned list with its statistic value. -/
theorem pickMax_eq (f : Nat → Frac) :
    ∀ (cs : List Nat) (init : Option (Nat × Frac)) (k : Nat) (st : Frac),
      pickMax f init cs = some (k, st) →
      init = some (k, st) ∨ (k ∈ cs ∧ st = f k) := by
  intro cs
  induction cs with
  | nil =>
    intro init k st h
    exact Or.inl h
  | cons c cs ih =>
    intro init k st h
    cases init with
    | none =>
      simp only [pickMax] at h
      rcases ih _ _ _ h with h' | ⟨hm, rfl⟩
      · rcases Prod.mk.injEq .. ▸ Option.some.inj h' with ⟨rfl, rfl⟩
        exact Or.inr ⟨List.mem_cons_self _ _, rfl⟩
      · exact Or.inr ⟨List.mem_cons_of_mem _ hm, rfl⟩
    | some p =>
      simp only [pickMax] at h
      rcases ih _ _ _ h with h' | ⟨hm, rfl⟩
      · by_cases hlt : p.2.blt (f c) = true
        · rw [if_pos hlt] at h'
          rcases Prod.mk.injEq .. ▸ Option.some.inj h' with ⟨rfl, rfl⟩
          exact Or.inr ⟨List.mem_cons_self _ _, rfl⟩
        · rw [if_neg hlt] at h'
          left
          rw [← h']
      · exact Or.inr ⟨List.mem_cons_of_mem _ hm, rfl⟩

/-- Candidate split offsets are interior: at least 1 and below the length. -/
theorem candidates_bounds {opts : AnalysisOptions} {len k : Nat}
    (h : k ∈ candidates opts len) : 1 ≤ k ∧ k < len := by
  unfold candidates at h
  cases hw : opts.window_len with
  | none =>
    rw [hw] at h
    rw [List.mem_range'_1] at h
    omega
  | some w =>
    rw [hw] at h
    simp only [List.mem_range'_1] at h
    omega

/-- Inversion of an accepted interval test: the produced change point splits
the interval at an interior candidate offset, its statistics are those of the
two sub-segments, and it passed the `min_magnitude` filter. -/
theorem testInterval_some {opts : AnalysisOptions} {xs : List Int} {a b s : Nat}
    {cp : RawChangePoint} {s' : Nat}
    (h : testInterval opts xs a b s = (some cp, s')) :
    ∃ k, k ∈ candidates opts ((xs.drop a).take (b - a)).length ∧
      cp.index = a + k ∧
      (∃ pv, cp.stats = compStats (((xs.drop a).take (b - a)).take k)
        (((xs.drop a).take (b - a)).drop k) pv) ∧
      Frac.ble opts.min_magnitude cp.stats.magnitude = true := by
  unfold testInterval at h
  dsimp only at h
  cases hms : maxStat opts ((xs.drop a).take (b - a)) with
  | none =>
    rw [hms] at h
    simp at h
  | some ks =>
    rw [hms] at h
    obtain ⟨k, obs⟩ := ks
    simp only at h
    by_cases hacc : (Frac.ble
        ⟨(permCount opts ((xs.drop a).take (b - a)) obs opts.permutations s).1,
          opts.permutations⟩ opts.max_pvalue &&
        Frac.ble opts.min_magnitude
          (compStats (((xs.drop a).take (b - a)).take k)
            (((xs.drop a).take (b - a)).drop k)
            ⟨(permCount opts ((xs.drop a).take (b - a)) obs opts.permutations s).1,
              opts.permutations⟩).magnitude) = true
    · rw [if_pos hacc] at h
      obtain ⟨h1, h2⟩ := Prod.mk.injEq .. ▸ h
      rcases Option.some.inj h1 with rfl
      rw [Bool.and_eq_true] at hacc
      obtain ⟨-, hmag⟩ := hacc
      refine ⟨k, ?_, rfl, ⟨_, rfl⟩, hmag⟩
      have := pickMax_eq _ _ _ _ _ hms
      rcases this with h' | ⟨hm, _⟩
      · cases h'
      · exact hm
    · rw [if_neg hacc] at h
      obtain ⟨h1, _⟩ := Prod.mk.injEq .. ▸ h
      cases h1

/-- Every change point in the output of the divisive loop is either carried in
from the accumulator or was accepted by some interval test. -/
theorem detectGo_mem {opts : AnalysisOptions} {xs : List Int} :
    ∀ (fuel : Nat) (q : List (Nat × Nat)) (acc : List RawChangePoint) (s : Nat)
      (cp : RawChangePoint), cp ∈ detectGo opts xs fuel q acc s →
      cp ∈ acc ∨ ∃ a b s0 s1, testInterval opts xs a b s0 = (some cp, s1) := by
  intro fuel
  induction fuel with
  | zero =>
    intro q acc s cp h
    unfold detectGo at h
    exact Or.inl ((List.perm_insertionSort _ _).mem_iff.mp h)
  | succ fuel ih =>
    intro q acc s cp h
    cases q with
    | nil =>
      unfold detectGo at h
      exact Or.inl ((List.perm_insertionSort _ _).mem_iff.mp h)
    | cons ab q =>
      obtain ⟨a, b⟩ := ab
      unfold detectGo at h
      cases hti : testInterval opts xs a b s with
      | mk o s' =>
        rw [hti] at h
        cases o with
        | none =>
          dsimp only at h
          exact ih _ _ _ _ h
        | some cp' =>
          dsimp only at h
          rcases ih _ _ _ _ h with hacc | hex
          · rcases List.mem_cons.mp hacc with rfl | hacc'
            · exact Or.inr ⟨a, b, s, s', hti⟩
            · exact Or.inl hacc'
          · exact Or.inr hex

/-- Every change point returned by `detect` lies strictly inside the sequence
(its index is in `[1, N-1]`) and passed the `min_magnitude` filter. -/
theorem detect_mem {opts : AnalysisOptions} {xs : List Int} {cp : RawChangePoint}
    (h : cp ∈ detect opts xs) :
    1 ≤ cp.index ∧ cp.index < xs.length ∧
      Frac.ble opts.min_magnitude cp.stats.magnitude = true := by
  unfold detect at h
  rcases detectGo_mem _ _ _ _ _ h with hacc | ⟨a, b, s0, s1, hti⟩
  · cases hacc
  · obtain ⟨k, hk, hidx, -, hmag⟩ := testInterval_some hti
    obtain ⟨hk1, hk2⟩ := candidates_bounds hk
    have hlen : ((xs.drop a).take (b - a)).length ≤ xs.length - a := by
      rw [List.length_take, List.length_drop]
      omega
    refine ⟨by omega, by omega, hmag⟩

/-- Setting any position of a constant list to the same value is a no-op. -/
theorem set_replicate (c : Int) : ∀ (n i : Nat),
    (List.replicate n c).set i c = List.replicate n c := by
  intro n
  induction n with
  | zero => intro i; rfl
  | succ n ih =>
    intro i
    cases i with
    | zero => simp [List.replicate_succ]
    | succ i => simp [List.replicate_succ, ih]

/-- Reading inside a constant list yields the constant. -/
theorem getD_replicate (c : Int) : ∀ (n i : Nat), i < n →
    (List.replicate n c).getD i 0 = c := by
  intro n
  induction n with
  | zero => intro i h; omega
  | succ n ih =>
    intro i h
    cases i with
    | zero => rfl
    | succ i => simpa [List.replicate_succ] using ih i (by omega)

/-- Swapping two in-range positions of a constant list is a no-op. -/
theorem swapIdx_replicate (c : Int) {n i j : Nat} (hi : i < n) (hj : j < n) :
    swapIdx (List.replicate n c) i j = List.replicate n c := by
  unfold swapIdx
  rw [getD_replicate c n i hi, getD_replicate c n j hj]
  dsimp only
  rw [set_replicate, set_replicate]

/-- The shuffling pass leaves a constant list unchanged. -/
theorem shuffleGo_replicate (c : Int) {n : Nat} :
    ∀ (m s : Nat), m < n → (shuffleGo (List.replicate n c) s m).1 = List.replicate n c := by
  intro m
  induction m with
  | zero => intro s h; rfl
  | succ m ih =>
    intro s h
    unfold shuffleGo
    dsimp only
    rw [swapIdx_replicate c h (Nat.lt_of_lt_of_le (Nat.mod_lt _ (by omega)) (by omega))]
    exact ih _ (by omega)

/-- A shuffle of a constant list is the constant list. -/
theorem shuffle_replicate (c : Int) (n s : Nat) :
    (shuffle (List.replicate n c) s).1 = List.replicate n c := by
  unfold shuffle
  rw [List.length_replicate]
  cases n with
  | zero => rfl
  | succ k => exact shuffleGo_replicate c _ _ (Nat.lt_succ_self k)

/-- Sorting a constant list is a no-op. -/
theorem insertionSort_replicate (c : Int) (n : Nat) :
    (List.replicate n c).insertionSort (· ≤ ·) = List.replicate n c := by
  have hp := List.perm_insertionSort (α := Int) (· ≤ ·) (List.replicate n c)
  rw [List.eq_replicate]
  exact ⟨by rw [hp.length_eq, List.length_replicate],
    fun b hb => List.eq_of_mem_replicate (hp.mem_iff.mp hb)⟩

/-- The doubled median of a nonempty constant list is twice the constant. -/
theorem med2_replicate (c : Int) {n : Nat} (h : 1 ≤ n) :
    med2 (List.replicate n c) = 2 * c := by
  unfold med2
  simp only [insertionSort_replicate, List.length_replicate]
  by_cases hodd : n % 2 = 1
  · rw [if_pos hodd, getD_replicate c n _ (by omega)]
  · rw [if_neg hodd, if_neg (by omega), getD_replicate c n _ (by omega),
      getD_replicate c n _ (by omega)]
    ring

/-- All pairwise distances inside a constant list vanish. -/
theorem pairAbsSum_replicate (c : Int) : ∀ n, pairAbsSum (List.replicate n c) = 0 := by
  intro n
  induction n with
  | zero => rfl
  | succ n ih =>
    rw [List.replicate_succ]
    unfold pairAbsSum
    rw [ih]
    simp [iabs]

/-- All cross distances between two constant lists over the same value vanish. -/
theorem crossAbsSum_replicate (c : Int) (m k : Nat) :
    crossAbsSum (List.replicate m c) (List.replicate k c) = 0 := by
  unfold crossAbsSum
  simp [List.map_replicate, List.sum_replicate, iabs]

/-- A guarded quotient with zero numerator has zero numerator. -/
theorem fracOfDiv_zero_num (b : Int) : (fracOfDiv 0 b).num = 0 := by
  unfold fracOfDiv
  split <;> rfl

/-- The divergence statistic of a constant interval vanishes (both variants). -/
theorem divergence_const (opts : AnalysisOptions) (c : Int) {m k : Nat}
    (hm : 1 ≤ m) (hk : 1 ≤ k) :
    (divergence opts (List.replicate m c) (List.replicate k c)).num = 0 := by
  unfold divergence
  by_cases horig : opts.orig_edivisive <;>
    simp [horig, Frac.mul, Frac.sub, Frac.add, Frac.ofInt, withinMean,
      pairAbsSum_replicate, crossAbsSum_replicate, med2_replicate c hm,
      med2_replicate c hk, fracOfDiv_zero_num, iabs]

/-- `Frac.ble` is reflexive. -/
theorem Frac.ble_refl (a : Frac) : a.ble a = true := by
  unfold Frac.ble
  simp

/-- When shuffling is the identity on the interval, every permutation trial
reproduces the observed maximal statistic, so all trials count. -/
theorem permCount_fixed {opts : AnalysisOptions} {seg : List Int} {obs : Frac}
    {ks : Nat × Frac} (hfix : ∀ s, (shuffle seg s).1 = seg)
    (hms : maxStat opts seg = some ks) (hobs : obs.ble ks.2 = true) :
    ∀ (t s : Nat), (permCount opts seg obs t s).1 = t := by
  intro t
  induction t with
  | zero => intro s; rfl
  | succ t ih =>
    intro s
    unfold permCount
    dsimp only
    rw [hfix, hms]
    dsimp only
    rw [hobs]
    simp only [eq_self_iff_true, if_true, if_pos]
    rw [ih]
    omega

/-- On a constant sequence the whole-range interval test rejects: every
shuffle reproduces the observed (zero) statistic, so the empirical p-value
is 1, far above the default threshold. -/
theorem testInterval_const_none (c : Int) (n : Nat) (s : Nat) :
    (testInterval defaultOpts (List.replicate n c) 0 n s).1 = none := by
  unfold testInterval
  dsimp only
  rw [List.drop_zero, Nat.sub_zero, List.take_replicate, min_self]
  cases hms : maxStat defaultOpts (List.replicate n c) with
  | none => rfl
  | some ks =>
    obtain ⟨k, obs⟩ := ks
    dsimp only
    have hst : obs.num = 0 := by
      rcases pickMax_eq _ _ _ _ _ hms with h | ⟨hmem, heq⟩
      · cases h
      · rw [List.length_replicate] at hmem
        obtain ⟨hk1, hk2⟩ := candidates_bounds hmem
        rw [heq, List.take_replicate, List.drop_replicate]
        exact divergence_const _ c (by omega) (by omega)
    have hcnt : (permCount defaultOpts (List.replicate n c) obs
        defaultOpts.permutations s).1 = defaultOpts.permutations :=
      permCount_fixed (fun s => shuffle_replicate c n s) hms
        (by unfold Frac.ble; simp [hst]) defaultOpts.permutations s
    rw [hcnt]
    have hble : Frac.ble ⟨(defaultOpts.permutations : Int), (defaultOpts.permutations : Int)⟩
        defaultOpts.max_pvalue = false := by decide
    rw [hble, Bool.false_and, if_neg (by simp)]

/-- The divisive loop with an empty queue returns the sorted accumulator. -/
theorem detectGo_nil {opts : AnalysisOptions} {xs : List Int} :
    ∀ (fuel : Nat) (acc : List RawChangePoint) (s : Nat),
      detectGo opts xs fuel [] acc s = acc.insertionSort (fun c d => c.index ≤ d.index) := by
  intro fuel acc s
  cases fuel <;> rfl

/-- No change point is detected in a constant sequence under default options. -/
theorem detect_const (c : Int) (n : Nat) :
    detect defaultOpts (List.replicate n c) = [] := by
  unfold detect
  rw [List.length_replicate]
  have h1 : ∃ s', detectGo defaultOpts (List.replicate n c) (2 * n + 1) [(0, n)] []
      defaultOpts.seed = detectGo defaultOpts (List.replicate n c) (2 * n) [] [] s' := by
    rw [detectGo]
    rcases hti : testInterval defaultOpts (List.replicate n c) 0 n defaultOpts.seed with ⟨o, s'⟩
    have ho : o = none := by
      have := testInterval_const_none c n defaultOpts.seed
      rw [hti] at this
      exact this
    subst ho
    exact ⟨s', rfl⟩
  obtain ⟨s', h1⟩ := h1
  rw [h1, detectGo_nil]
  rfl

/-- The initial value bounds a `foldl max` from below. -/
theorem le_foldl_max : ∀ (l : List Nat) (a : Nat), a ≤ l.foldl max a := by
  intro l
  induction l with
  | nil => intro a; exact le_refl a
  | cons x l ih => intro a; exact le_trans (le_max_left a x) (ih _)

/-- Every member bounds a `foldl max` from below. -/
theorem mem_le_foldl_max : ∀ (l : List Nat) (a x : Nat), x ∈ l → x ≤ l.foldl max a := by
  intro l
  induction l with
  | nil => intro a x h; cases h
  | cons y l ih =>
    intro a x h
    rcases List.mem_cons.mp h with rfl | h'
    · exact le_trans (le_max_right a x) (le_foldl_max _ _)
    · exact ih _ _ h'

/-- A `foldl max` is the initial value or a member of the list. -/
theorem foldl_max_mem : ∀ (l : List Nat) (a : Nat),
    l.foldl max a = a ∨ l.foldl max a ∈ l := by
  intro l
  induction l with
  | nil => intro a; exact Or.inl rfl
  | cons x l ih =>
    intro a
    rcases ih (max a x) with h | h
    · rw [List.foldl_cons, h]
      rcases max_choice a x with h' | h'
      · exact Or.inl h'
      · rw [h']
        exact Or.inr (List.mem_cons_self _ _)
    · exact Or.inr (List.mem_cons_of_mem _ h)

/-- A `foldl max` of values all at most `i`, from an initial value at most
`i`, stays at most `i`. -/
theorem foldl_max_le {i : Nat} : ∀ (l : List Nat) (a : Nat), a ≤ i →
    (∀ x ∈ l, x ≤ i) → l.foldl max a ≤ i := by
  intro l
  induction l with
  | nil => intro a ha _; exact ha
  | cons x l ih =>
    intro a ha hl
    exact ih _ (max_le ha (hl x (List.mem_cons_self _ _)))
      (fun y hy => hl y (List.mem_cons_of_mem _ hy))

/-- A `foldl min` is bounded above by its initial value. -/
theorem foldl_min_le : ∀ (l : List Nat) (a : Nat), l.foldl min a ≤ a := by
  intro l
  induction l with
  | nil => intro a; exact le_refl a
  | cons x l ih => intro a; exact le_trans (ih _) (min_le_left a x)

/-- A `foldl min` is bounded above by every member of the list. -/
theorem foldl_min_le_mem : ∀ (l : List Nat) (a x : Nat), x ∈ l → l.foldl min a ≤ x := by
  intro l
  induction l with
  | nil => intro a x h; cases h
  | cons y l ih =>
    intro a x h
    rcases List.mem_cons.mp h with rfl | h'
    · rw [List.foldl_cons]
      exact le_trans (foldl_min_le _ _) (min_le_right a x)
    · exact ih _ _ h'

/-- A `foldl min` is the initial value or a member of the list. -/
theorem foldl_min_mem : ∀ (l : List Nat) (a : Nat),
    l.foldl min a = a ∨ l.foldl min a ∈ l := by
  intro l
  induction l with
  | nil => intro a; exact Or.inl rfl
  | cons x l ih =>
    intro a
    rcases ih (min a x) with h | h
    · rw [List.foldl_cons, h]
      rcases min_choice a x with h' | h'
      · exact Or.inl h'
      · rw [h']
        exact Or.inr (List.mem_cons_self _ _)
    · exact Or.inr (List.mem_cons_of_mem _ h)

/-- A lower bound of the initial value and of all members bounds a
`foldl min` from below. -/
theorem le_foldl_min {i : Nat} : ∀ (l : List Nat) (a : Nat), i ≤ a →
    (∀ x ∈ l, i ≤ x) → i ≤ l.foldl min a := by
  intro l
  induction l with
  | nil => intro a ha _; exact ha
  | cons x l ih =>
    intro a ha hl
    exact ih _ (le_min ha (hl x (List.mem_cons_self _ _)))
      (fun y hy => hl y (List.mem_cons_of_mem _ hy))

/-- Looking a key up in a list mapped by a key-preserving entry transform
applies the transform to the looked-up value. -/
theorem lookup_map_entry {β : Type} (g : String → β → β) :
    ∀ (l : List (String × β)) (m : String),
      (l.map (fun x => (x.1, g x.1 x.2))).lookup m = (l.lookup m).map (g m) := by
  intro l
  induction l with
  | nil => intro m; rfl
  | cons x l ih =>
    intro m
    obtain ⟨k, v⟩ := x
    by_cases hkm : (m == k) = true
    · have hm : m = k := eq_of_beq hkm
      subst hm
      simp [List.lookup, hkm]
    · rw [Bool.not_eq_true] at hkm
      simp [List.lookup, hkm, ih]

/-- Every group produced by analyzing a series takes its index from a change
point detected on one of the series' data sequences. -/
theorem by_time_index_from_detect {s : Series} {opts : AnalysisOptions}
    {g : ChangePointGroup} (hg : g ∈ (s.analyze opts).change_points_by_time) :
    ∃ md ∈ s.data, ∃ rc ∈ detect opts md.2, g.index = rc.index := by
  unfold AnalyzedSeries.change_points_by_time at hg
  dsimp only at hg
  rw [List.mem_map] at hg
  obtain ⟨i, hi, hgi⟩ := hg
  have hgidx : g.index = i := by rw [← hgi]
  have hi' := (List.perm_insertionSort _ _).mem_iff.mp hi
  rw [List.mem_dedup, List.mem_flatten] at hi'
  obtain ⟨lst, hlst, hilst⟩ := hi'
  rw [List.mem_map] at hlst
  obtain ⟨mc, hmc, rfl⟩ := hlst
  unfold AnalyzedSeries.cpList Series.analyze at hmc
  dsimp only at hmc
  rw [Option.getD_some, List.mem_map] at hmc
  obtain ⟨md, hmd, rfl⟩ := hmc
  dsimp only at hilst
  rw [List.mem_map] at hilst
  obtain ⟨cp, hcp, rfl⟩ := hilst
  rw [List.mem_map] at hcp
  obtain ⟨rc, hrc, rfl⟩ := hcp
  exact ⟨md, hmd, rc, hrc, hgidx⟩

/-- Serializing groups whose indices all lie on the time axis succeeds. -/
theorem groupsJson_isSome {time : List Int} :
    ∀ (gs : List ChangePointGroup), (∀ g ∈ gs, g.index < time.length) →
      (groupsJson time gs).isSome = true := by
  intro gs
  induction gs with
  | nil => intro _; rfl
  | cons g gs ih =>
    intro h
    unfold groupsJson
    have hlt : g.index < time.length := h g (List.mem_cons_self _ _)
    obtain ⟨t, ht⟩ : ∃ t, time.get? g.index = some t :=
      ⟨_, List.get?_eq_get hlt⟩
    rw [ht]
    have hrest := ih (fun g' hg' => h g' (List.mem_cons_of_mem _ hg'))
    cases hgs : groupsJson time gs with
    | none => rw [hgs] at hrest; cases hrest
    | some rest => rfl

/-- Analyzing the single-metric series reads back exactly the indices the
detection finds on the data sequence. -/
theorem mkSeries_cpIndexes (xs : List Int) (opts : AnalysisOptions) :
    ((mkSeries xs).analyze opts).cpIndexes "series1" = (detect opts xs).map (·.index) := by
  unfold AnalyzedSeries.cpIndexes AnalyzedSeries.cpList Series.analyze mkSeries
  dsimp only
  rw [Option.getD_some]
  simp [List.lookup, List.map_map]

/-- Looking a metric up in the comparison results: a metric present in both
series is mapped to its comparative statistics. -/
theorem compare_lookup {a b : AnalyzedSeries} {pa pb : Option Nat} {m : String}
    {xs : List Int} (ha : a.series.data.lookup m = some xs)
    (hb : (b.series.data.lookup m).isSome = true) :
    (Hunter.compare a pa b pb).stats.lookup m = some (compareEntry a pa b pb m) := by
  unfold Hunter.compare
  dsimp only
  revert xs
  induction a.series.data with
  | nil =>
    intro xs ha
    cases ha
  | cons md l ih =>
    intro xs ha
    obtain ⟨k, v⟩ := md
    rw [List.filterMap_cons]
    by_cases hkm : (m == k) = true
    · have hm : m = k := eq_of_beq hkm
      subst hm
      obtain ⟨w, hw⟩ := Option.isSome_iff_exists.mp hb
      rw [hw]
      dsimp only
      simp [List.lookup]
    · rw [Bool.not_eq_true] at hkm
      have ha' : l.lookup m = some xs := by
        simpa [List.lookup, hkm] using ha
      cases hbk : b.series.data.lookup k with
      | none =>
        dsimp only
        exact ih ha'
      | some w =>
        dsimp only
        simpa [List.lookup, hkm] using ih ha'

/-- A selected sample of size one on either side degenerates the Welch-style
p-value to the maximally uncertain value 1. -/
theorem welchPValue_single {l r : List Int} (h : l.length = 1 ∨ r.length = 1) :
    welchPValue l r = ⟨1, 1⟩ := by
  unfold welchPValue
  rcases h with h | h
  · rw [if_pos (Or.inl (by omega))]
  · rw [if_pos (Or.inr (by omega))]

/-- C9: analyze() is deterministic — it is a pure function of the data and the
options (the permutation shuffling is driven by the seed carried in the
options), so two series carrying identical data analyzed with the same
options yield identical change-point bookkeeping, regardless of test name,
branch, time axis, metric metadata or attributes. -/
theorem hunter_c9_deterministic (s1 s2 : Series) (opts : AnalysisOptions)
    (h : s1.data = s2.data) :
    (s1.analyze opts).change_points = (s2.analyze opts).change_points := by
  unfold Series.analyze
  dsimp only
  rw [h]

/-- Witness for C9 at two concrete series differing in everything but data. -/
theorem hunter_c9_witness :
    (detSeriesA.analyze defaultOpts).change_points =
      (detSeriesB.analyze defaultOpts).change_points :=
  hunter_c9_deterministic detSeriesA detSeriesB defaultOpts rfl

/-- C3: `can_append` returns `true` exactly when `append` with the same
arguments succeeds; it is a total boolean dry run over the unchanged
snapshot (it returns a `Bool`, producing no error and no new state). -/
theorem hunter_c3_can_append_iff (a : AnalyzedSeries) (time : List Int)
    (new_data : List (String × List Int)) (attrs : List (String × List String)) :
    a.can_append time new_data attrs = true ↔
      ∃ a', a.append time new_data attrs = Except.ok a' := by
  unfold AnalyzedSeries.can_append AnalyzedSeries.append
  cases hv : a.validate_append time new_data attrs with
  | none => simp
  | some e => simp

/-- C10: `RegressionsReport.produce_report` over an empty regressions list
yields exactly `"<test_name>: OK"` for the LOG type and the JSON object
mapping the test name to an empty list for the JSON type. -/
theorem hunter_c10_regressions_report_empty (test_name : String) :
    (RegressionsReport.mk []).produce_report test_name ReportType.log =
      test_name ++ ": OK" ∧
    (RegressionsReport.mk []).produce_report test_name ReportType.json =
      jsonDumps (Json.obj [(test_name, Json.arr [])]) := by
  constructor <;> rfl

/-- C8: validation before append distinguishes a corrupted (missing/`none`)
change-point state — reported as the logic-error kind `runtimeError` — from
plain bad input such as non-increasing timestamps or empty `new_data`
(`valueError`); every validation error aborts `append` with that error and
no new state, and the two error kinds are distinct. -/
theorem hunter_c8_validate_errors (a : AnalyzedSeries) (time : List Int)
    (new_data : List (String × List Int)) (attrs : List (String × List String)) :
    (a.change_points = none →
      a.validate_append time new_data attrs =
        some (HunterErr.runtimeError "corrupted change_points state") ∧
      a.append time new_data attrs =
        Except.error (HunterErr.runtimeError "corrupted change_points state")) ∧
    (∀ e, a.validate_append time new_data attrs = some e →
      a.append time new_data attrs = Except.error e) ∧
    (a.change_points ≠ none → new_data = [] →
      a.validate_append time new_data attrs =
        some (HunterErr.valueError "new_data must not be empty")) ∧
    (a.change_points ≠ none → new_data ≠ [] →
      (∀ md ∈ new_data, (a.series.metrics.lookup md.1).isSome = true) →
      ¬ (∀ t ∈ time, ∀ t0 ∈ a.series.time, t0 < t) →
      a.validate_append time new_data attrs =
        some (HunterErr.valueError "time values must be greater than existing ones")) ∧
    (∀ m1 m2, HunterErr.runtimeError m1 ≠ HunterErr.valueError m2) := by
  refine ⟨?_, ?_, ?_, ?_, ?_⟩
  · intro hcp
    have hv : a.validate_append time new_data attrs =
        some (HunterErr.runtimeError "corrupted change_points state") := by
      unfold AnalyzedSeries.validate_append
      rw [if_pos (by rw [hcp]; rfl)]
    refine ⟨hv, ?_⟩
    unfold AnalyzedSeries.append
    rw [hv]
  · intro e hv
    unfold AnalyzedSeries.append
    rw [hv]
  · intro hcp hnd
    unfold AnalyzedSeries.validate_append
    rw [if_neg (by simp [Option.isNone_iff_eq_none, hcp]), if_pos (by rw [hnd]; rfl)]
  · intro hcp hnd hmet htime
    unfold AnalyzedSeries.validate_append
    rw [if_neg (by simp [Option.isNone_iff_eq_none, hcp])]
    rw [if_neg (by simp [List.isEmpty_iff, hnd])]
    rw [if_neg (by
      simp only [Bool.not_eq_true', Bool.not_eq_false]
      exact List.all_eq_true.mpr (fun md hmd => hmet md hmd))]
    rw [if_pos (by
      simp only [Bool.not_eq_true']
      rw [Bool.eq_false_iff]
      intro hall
      apply htime
      intro t ht t0 ht0
      have h1 := List.all_eq_true.mp hall t ht
      have h2 := List.all_eq_true.mp h1 t0 ht0
      exact of_decide_eq_true h2)]
  · intro m1 m2 h
    cases h

/-- Witness for C8: the corrupted state yields the `runtimeError` kind and an
aborted append; backdated time and empty new data yield the `valueError`
kind. -/
theorem hunter_c8_witness :
    w8Bad.validate_append [2] [("m", [7])] [] =
      some (HunterErr.runtimeError "corrupted change_points state") ∧
    w8Bad.append [2] [("m", [7])] [] =
      Except.error (HunterErr.runtimeError "corrupted change_points state") ∧
    w8Good.validate_append [0] [("m", [7])] [] =
      some (HunterErr.valueError "time values must be greater than existing ones") ∧
    w8Good.validate_append [2] [] [] =
      some (HunterErr.valueError "new_data must not be empty") :=
  ⟨((hunter_c8_validate_errors w8Bad [2] [("m", [7])] []).1 rfl).1,
   ((hunter_c8_validate_errors w8Bad [2] [("m", [7])] []).1 rfl).2,
   (hunter_c8_validate_errors w8Good [0] [("m", [7])] []).2.2.2.1 (by decide) (by decide)
     (by decide) (by decide),
   (hunter_c8_validate_errors w8Good [2] [] []).2.2.1 (by decide) rfl⟩

/-- C2: a successful append preserves every previously found change-point
index of every metric unchanged, and every change point the append adds has
an index strictly greater than all indices present before. -/
theorem hunter_c2_append_incremental (a : AnalyzedSeries) (time : List Int)
    (new_data : List (String × List Int)) (attrs : List (String × List String))
    (a' : AnalyzedSeries) (h : a.append time new_data attrs = Except.ok a')
    (m : String) :
    (∀ i ∈ a.cpIndexes m, i ∈ a'.cpIndexes m) ∧
    (∀ j ∈ a'.cpIndexes m, j ∉ a.cpIndexes m → ∀ i ∈ a.cpIndexes m, i < j) := by
  unfold AnalyzedSeries.append at h
  cases hv : a.validate_append time new_data attrs with
  | some e =>
    rw [hv] at h
    cases h
  | none =>
    rw [hv] at h
    dsimp only at h
    have ha' := (Except.ok.inj h).symm
    subst ha'
    unfold AnalyzedSeries.cpIndexes AnalyzedSeries.cpList
    dsimp only
    rw [Option.getD_some,
      lookup_map_entry (appendEntry a.options new_data
        (extendSeries a.series time new_data attrs).data)]
    cases hol : (a.change_points.getD []).lookup m with
    | none => simp
    | some cps =>
      dsimp only [Option.map]
      unfold appendEntry
      cases hnd : new_data.lookup m with
      | none =>
        exact ⟨fun i hi => hi, fun j hj hnj i hi => absurd hj hnj⟩
      | some vs =>
        unfold appendMetricCPs
        dsimp only
        constructor
        · intro i hi
          rw [List.map_append]
          exact List.mem_append_left _ hi
        · intro j hj hnj i hi
          rw [List.map_append, List.mem_append] at hj
          rcases hj with hj | hj
          · exact absurd hj hnj
          · rw [List.mem_map] at hj
            obtain ⟨cpn, hcpn, rfl⟩ := hj
            rw [List.mem_map] at hcpn
            obtain ⟨rc, hrc, rfl⟩ := hcpn
            dsimp only
            have h1 : 1 ≤ rc.index := (detect_mem hrc).1
            have h2 : i ≤ (cps.map (·.index)).foldl max 0 := mem_le_foldl_max _ _ _ hi
            omega

/-- Witness for C2: a concrete successful append on a small analyzed series,
whose previously found index 1 is still present afterwards. -/
theorem hunter_c2_witness : 1 ∈ w2After.cpIndexes "m" :=
  ((hunter_c2_append_incremental w2Base [3] [("m", [13])] [] w2After (by rfl) "m").1)
    1 (by decide)

/-- C4: degenerate numeric input is safe — for every input of length at least
2, `analyze()` under default options produces a result whose `to_json()` is
well defined (no timestamp lookup can fail, the embedded counterpart of the
division-by-zero / NaN hazards all being explicitly guarded), and an
all-constant input analyzes cleanly with zero change points. -/
theorem hunter_c4_degenerate_safe (xs : List Int) (h : 2 ≤ xs.length) :
    (((mkSeries xs).analyze defaultOpts).to_json).isSome = true ∧
    (∀ c : Int, xs = List.replicate xs.length c →
      ((mkSeries xs).analyze defaultOpts).cpIndexes "series1" = []) := by
  constructor
  · have hlen : ((mkSeries xs).analyze defaultOpts).series.time.length = xs.length := by
      unfold mkSeries Series.analyze
      simp
    have hb : ∀ g ∈ ((mkSeries xs).analyze defaultOpts).change_points_by_time,
        g.index < ((mkSeries xs).analyze defaultOpts).series.time.length := by
      intro g hg
      obtain ⟨md, hmd, rc, hrc, hidx⟩ := by_time_index_from_detect hg
      have hmd' : md = ("series1", xs) := by
        unfold mkSeries at hmd
        simpa using hmd
      subst hmd'
      have := (detect_mem hrc).2.1
      rw [hidx, hlen]
      exact this
    have hsome := groupsJson_isSome _ hb
    unfold AnalyzedSeries.to_json
    cases hgs : groupsJson ((mkSeries xs).analyze defaultOpts).series.time
        ((mkSeries xs).analyze defaultOpts).change_points_by_time with
    | none =>
      rw [hgs] at hsome
      cases hsome
    | some gs => rfl
  · intro c hc
    rw [mkSeries_cpIndexes]
    have hd : detect defaultOpts xs = [] := by
      rw [hc]
      exact detect_const c _
    rw [hd]
    rfl

/-- Witness for C4 at the constant input `[0, 0]`. -/
theorem hunter_c4_witness :
    (((mkSeries [0, 0]).analyze defaultOpts).to_json).isSome = true ∧
    ((mkSeries [0, 0]).analyze defaultOpts).cpIndexes "series1" = [] :=
  ⟨(hunter_c4_degenerate_safe [0, 0] (by decide)).1,
   (hunter_c4_degenerate_safe [0, 0] (by decide)).2 0 rfl⟩

/-- C5: every change point returned by `analyze()` carries statistics whose
`magnitude()` is at least the configured `min_magnitude` (the detection loop
only accepts splits passing that filter); on the reference two-metric data
with `min_magnitude = 0.2` exactly one change-point group survives, at
index 6 for metric `series1`. -/
theorem hunter_c5_min_magnitude :
    (∀ (s : Series) (opts : AnalysisOptions) (l : List (String × List ChangePoint))
      (m : String) (cps : List ChangePoint) (cp : ChangePoint),
      (s.analyze opts).change_points = some l → (m, cps) ∈ l → cp ∈ cps →
      Frac.le opts.min_magnitude cp.stats.magnitude) ∧
    (refSeries.analyze optsMag).change_points_by_time.map
      (fun g => (g.index, g.changes.map (·.metric))) = [(6, ["series1"])] := by
  constructor
  · intro s opts l m cps cp hl hml hcp
    unfold Series.analyze at hl
    dsimp only at hl
    have hl' := Option.some.inj hl
    subst hl'
    rw [List.mem_map] at hml
    obtain ⟨md, hmd, hpair⟩ := hml
    have hcps : cps = (detect opts md.2).map
        (fun rc => (⟨md.1, rc.index, rc.stats⟩ : ChangePoint)) := by
      have := congrArg Prod.snd hpair
      exact this.symm
    rw [hcps, List.mem_map] at hcp
    obtain ⟨rc, hrc, hcpe⟩ := hcp
    have hmag := (detect_mem hrc).2.2
    rw [← hcpe]
    exact hmag
  · unfold AnalyzedSeries.change_points_by_time AnalyzedSeries.cpList
    rw [refAnalyzeMag_eval]
    decide

/-- Witness for C5: the change point accepted on the two-point series
`[0, 100]` under permissive options satisfies the magnitude floor. -/
theorem hunter_c5_witness :
    Frac.le opts2.min_magnitude (ChangePoint.mk "m" 1 w5Stats).stats.magnitude :=
  hunter_c5_min_magnitude.1 w5Series opts2 [("m", [⟨"m", 1, w5Stats⟩])] "m"
    [⟨"m", 1, w5Stats⟩] ⟨"m", 1, w5Stats⟩ (by decide) (by decide) (by decide)

/-- C6: `get_stable_range(metric, index)` returns a half-open range that
contains the index, stays inside the series, is delimited by 0 / the series
length or by change points of the metric, and contains no change point
strictly inside; on the reference data it yields `(0, 6)` and `(6, 11)` for
`series1` at indices 0 and 6, and `(0, 4)` for `series2` at index 0. -/
theorem hunter_c6_stable_range :
    (∀ (a : AnalyzedSeries) (m : String) (i : Nat), i < a.seriesLen →
      (a.get_stable_range m i).1 ≤ i ∧ i < (a.get_stable_range m i).2 ∧
      (a.get_stable_range m i).2 ≤ a.seriesLen ∧
      ((a.get_stable_range m i).1 = 0 ∨ (a.get_stable_range m i).1 ∈ a.cpIndexes m) ∧
      ((a.get_stable_range m i).2 = a.seriesLen ∨
        (a.get_stable_range m i).2 ∈ a.cpIndexes m) ∧
      (∀ k ∈ a.cpIndexes m, k ≤ (a.get_stable_range m i).1 ∨
        (a.get_stable_range m i).2 ≤ k)) ∧
    ((refSeries.analyze defaultOpts).get_stable_range "series1" 0 = (0, 6) ∧
     (refSeries.analyze defaultOpts).get_stable_range "series1" 6 = (6, 11) ∧
     (refSeries.analyze defaultOpts).get_stable_range "series2" 0 = (0, 4)) := by
  constructor
  · intro a m i hi
    unfold AnalyzedSeries.get_stable_range
    dsimp only
    refine ⟨?_, ?_, ?_, ?_, ?_, ?_⟩
    · exact foldl_max_le _ _ (Nat.zero_le i) (fun x hx =>
        of_decide_eq_true (List.mem_filter.mp hx).2)
    · have := le_foldl_min (i := i + 1) ((a.cpIndexes m).filter (fun k => decide (i < k)))
        a.seriesLen (by omega) (fun x hx => of_decide_eq_true (List.mem_filter.mp hx).2)
      omega
    · exact foldl_min_le _ _
    · rcases foldl_max_mem ((a.cpIndexes m).filter (fun k => decide (k ≤ i))) 0 with h | h
      · exact Or.inl h
      · exact Or.inr (List.mem_filter.mp h).1
    · rcases foldl_min_mem ((a.cpIndexes m).filter (fun k => decide (i < k)))
        a.seriesLen with h | h
      · exact Or.inl h
      · exact Or.inr (List.mem_filter.mp h).1
    · intro k hk
      by_cases hki : k ≤ i
      · exact Or.inl (mem_le_foldl_max _ _ _
          (List.mem_filter.mpr ⟨hk, decide_eq_true hki⟩))
      · exact Or.inr (foldl_min_le_mem _ _ _
          (List.mem_filter.mpr ⟨hk, decide_eq_true (by omega)⟩))
  · refine ⟨?_, ?_, ?_⟩ <;>
      (unfold AnalyzedSeries.get_stable_range AnalyzedSeries.cpIndexes AnalyzedSeries.cpList
       rw [refAnalyze_eval]
       decide)

/-- Witness for C6 on a small hand-built analyzed series. -/
theorem hunter_c6_witness : (w2Base.get_stable_range "m" 0).1 ≤ 0 :=
  (hunter_c6_stable_range.1 w2Base "m" 0 (by decide)).1

/-- C7: compare permits samples of size one — whenever the selected sample of
a metric on either of the two series has exactly one element, `compare`
produces comparative statistics for that metric whose p-value degenerates to
the maximally uncertain value 1 (in particular greater than 0.5); in the
reference scenario the 11-point series compared against the similar-mean
1-point series yields p-value 1. -/
theorem hunter_c7_single_point_compare :
    (∀ (a b : AnalyzedSeries) (pa pb : Option Nat) (m : String) (xs : List Int),
      a.series.data.lookup m = some xs → (b.series.data.lookup m).isSome = true →
      (sampleOf a m pa).length = 1 ∨ (sampleOf b m pb).length = 1 →
      ∃ st, (Hunter.compare a pa b pb).stats.lookup m = some st ∧
        st.pvalue = ⟨1, 1⟩ ∧ Frac.blt ⟨1, 2⟩ st.pvalue = true) ∧
    ((Hunter.compare (cmpT1Series.analyze defaultOpts) none
        (cmpT2Series.analyze defaultOpts) none).stats.lookup "data").map
          (fun st => st.pvalue) = some ⟨1, 1⟩ := by
  constructor
  · intro a b pa pb m xs ha hb h1
    refine ⟨compareEntry a pa b pb m, compare_lookup ha hb, ?_, ?_⟩
    · unfold compareEntry compStats
      exact welchPValue_single h1
    · unfold compareEntry compStats
      dsimp only
      rw [welchPValue_single h1]
      decide
  · decide

/-- Witness for C7: comparing the one-point series (the singleton on the
first side) against a two-point series produces statistics for the shared
metric. -/
theorem hunter_c7_witness :
    ((Hunter.compare (cmpT2Series.analyze defaultOpts) none w7A none).stats.lookup
      "data").isSome = true := by
  obtain ⟨st, hst, -, -⟩ := hunter_c7_single_point_compare.1
    (cmpT2Series.analyze defaultOpts) w7A none none "data" [51]
    (by decide) (by decide) (Or.inl (by decide))
  rw [hst]
  rfl

/-- C1: on the reference two-metric series, `analyze()` with default options
returns exactly two change-point groups ordered by index ascending — the
first at index 4 containing only metric `series2`, the second at index 6
containing only metric `series1`. -/
theorem hunter_c1_reference_change_points :
    (refSeries.analyze defaultOpts).change_points_by_time.map
      (fun g => (g.index, g.changes.map (·.metric))) =
      [(4, ["series2"]), (6, ["series1"])] := by
  unfold AnalyzedSeries.change_points_by_time AnalyzedSeries.cpList
  rw [refAnalyze_eval]
  decide
